import Mathlib

/-!
Shallow embedding of the MKK-Luna resilience/consistency core:
team invite authorization, distributed lock release, login lockout,
fixed-window rate limiting, idempotency middleware, refresh-token
rotation and transactional task update with audit history.
Each definition is translated from the corresponding Go source file.
-/

/-- Domain error tags used across the services
(src/internal/service: ErrNotFound, ErrForbidden, ErrConflict,
ErrUnavailable, ErrBadRequest; ErrInvalidToken, ErrTokenReuse live in the
auth service).  `storeFail` stands for an untagged store / driver error
that is propagated as-is. -/
inductive SvcErr
  | notFound
  | forbidden
  | conflict
  | unavailable
  | badRequest
  | storeFail
  deriving DecidableEq, Repr

/-- Role constants from src/internal/service/team.go. -/
def RoleOwner : String := "owner"

def RoleAdmin : String := "admin"

def RoleMember : String := "member"

/-- canInvite from src/internal/service/team.go (switch on inviterRole with
cases RoleOwner, RoleAdmin and a default branch). -/
def canInvite (inviterRole targetRole : String) : Bool :=
  if inviterRole = RoleOwner then
    targetRole = RoleMember || targetRole = RoleAdmin
  else if inviterRole = RoleAdmin then
    targetRole = RoleMember
  else
    false

/-- Outcome of the distributed-lock Acquire call observed by InviteByEmail. -/
inductive LockOutcome
  | lockErr
  | held
  | acquired (token : String)
  deriving DecidableEq, Repr

/-- Collaborator results for one InviteByEmail call: each field is the
response of the corresponding store / lock / mailer operation in
src/internal/service/team.go. -/
structure InviteEnv where
  teamErr : Bool
  team : Option String
  roleErr : Bool
  inviterRole : Option String
  userErr : Bool
  targetUser : Option Int
  hasLocker : Bool
  lock : LockOutcome
  memberErr : Bool
  alreadyMember : Bool
  hasEmail : Bool
  emailFails : Bool
  addDup : Bool
  addErr : Bool
  deriving Repr

/-- A membership row inserted by s.members.Add(teamID, userID, role). -/
structure MemberRow where
  teamID : Int
  userID : Int
  role : String
  deriving DecidableEq, Repr

/-- The tail of InviteByEmail after the invite lock step: duplicate-member
check, email delivery, membership insert. -/
def inviteFinish (env : InviteEnv) (teamID : Int) (targetRole : String)
    (uid : Int) : Except SvcErr MemberRow :=
  if env.memberErr then .error .storeFail
  else if env.alreadyMember then .error .conflict
  else if env.hasEmail && env.emailFails then .error .unavailable
  else if env.addDup then .error .conflict
  else if env.addErr then .error .storeFail
  else .ok ⟨teamID, uid, targetRole⟩

/-- InviteByEmail from src/internal/service/team.go.  Returns the inserted
membership row on success (members.Add is the only insertion). -/
def InviteByEmail (env : InviteEnv) (teamID : Int) (targetRole : String) :
    Except SvcErr MemberRow :=
  if env.teamErr then .error .storeFail
  else
    match env.team with
    | none => .error .notFound
    | some _teamName =>
      if env.roleErr then .error .storeFail
      else
        match env.inviterRole with
        | none => .error .forbidden
        | some inviterRole =>
          if !canInvite inviterRole targetRole then .error .forbidden
          else if env.userErr then .error .storeFail
          else
            match env.targetUser with
            | none => .error .notFound
            | some uid =>
              -- distributed invite lock: acquire error bypasses
              -- (degradation), a held lock is a concurrent invite
              if env.hasLocker then
                match env.lock with
                | .lockErr => inviteFinish env teamID targetRole uid
                | .held => .error .conflict
                | .acquired _ => inviteFinish env teamID targetRole uid
              else
                inviteFinish env teamID targetRole uid

/-- A key-value store keyed by strings, as seen by the lock scripts. -/
def KVStore : Type := String → Option String

/-- The locker handle: in the source a *Locker with a possibly nil redis
client. -/
structure LockerHandle where
  hasClient : Bool
  deriving DecidableEq, Repr

/-- The Lua release script of src/internal/infra/redislock/locker.go:
delete the key only if its current value equals the owner token. -/
def releaseScriptRun (kv : KVStore) (key token : String) : KVStore :=
  if kv key = some token then
    fun k => if k = key then none else kv k
  else
    kv

/-- Result of Locker.Release: whether an error was returned, the store state
afterwards, and whether the store was contacted at all. -/
structure ReleaseResult where
  errored : Bool
  kv : KVStore
  contacted : Bool

/-- Locker.Release from src/internal/infra/redislock/locker.go.
`scriptFails` models the script invocation itself returning an error, in
which case the store state is not changed by the call. -/
def lockerRelease (l : Option LockerHandle) (key token : String)
    (kv : KVStore) (scriptFails : Bool) : ReleaseResult :=
  match l with
  | none => ⟨false, kv, false⟩
  | some h =>
    if !h.hasClient then ⟨false, kv, false⟩
    else if key = "" then ⟨false, kv, false⟩
    else if token = "" then ⟨false, kv, false⟩
    else if scriptFails then ⟨true, kv, true⟩
    else ⟨false, releaseScriptRun kv key token, true⟩

/-! ## Login lockout (src/internal/infra/auth/lockout.go)

Redis keys are modelled with explicit expiry instants: a key whose expiry
is `some e` is alive at time `t` iff `t < e`.  Times are in seconds. -/

/-- Lockout configuration; the Go fields are ints / durations, and the
receiver methods are no-ops when maxAttempts <= 0 or lockTTL <= 0. -/
structure LockoutCfg where
  maxAttempts : Int
  lockTTL : Int
  deriving DecidableEq, Repr

/-- The two redis keys the lockout uses for one normalized login:
the fail counter (value and optional expiry) and the lock key expiry. -/
structure LockoutState where
  failCount : Option (Nat × Option Nat)
  lockExpiry : Option Nat
  deriving DecidableEq, Repr

/-- Redis INCR on the fail key: an absent or expired key restarts at 1 with
no TTL; otherwise the live counter is incremented, keeping its expiry. -/
def incrFail (st : LockoutState) (now : Nat) : Nat × LockoutState :=
  match st.failCount with
  | none => (1, { st with failCount := some (1, none) })
  | some (c, none) => (c + 1, { st with failCount := some (c + 1, none) })
  | some (c, some e) =>
    if now < e then
      (c + 1, { st with failCount := some (c + 1, some e) })
    else
      (1, { st with failCount := some (1, none) })

/-- Lockout.OnFailure from src/internal/infra/auth/lockout.go, on the path
where every redis call succeeds: INCR the fail counter, set its TTL when the
counter is fresh, and once the counter has reached maxAttempts SET the lock
key to "1" with TTL = lockTTL.  Returns (locked, retryAfter, new state). -/
def lockoutOnFailure (cfg : LockoutCfg) (st : LockoutState) (now : Nat) :
    Bool × Int × LockoutState :=
  if cfg.maxAttempts ≤ 0 || cfg.lockTTL ≤ 0 then
    (false, 0, st)
  else
    let r := incrFail st now
    let count := r.1
    let st1 := r.2
    let st2 :=
      if count = 1 then
        { st1 with failCount := some (count, some (now + cfg.lockTTL.toNat)) }
      else st1
    if (count : Int) < cfg.maxAttempts then
      (false, 0, st2)
    else
      (true, cfg.lockTTL, { st2 with lockExpiry := some (now + cfg.lockTTL.toNat) })

/-- Lockout.IsLocked: the login is locked iff the lock key still has a
positive TTL. -/
def lockoutIsLocked (st : LockoutState) (now : Nat) : Bool :=
  match st.lockExpiry with
  | none => false
  | some e => now < e

/-! ## In-memory fixed-window rate limiter
(src/internal/infra/ratelimit/memory.go) -/

/-- A per-key limiter entry: request count and the reset instant. -/
structure MemEntry where
  count : Nat
  reset : Nat
  deriving DecidableEq, Repr

/-- The memoryLimiter: limit, window (seconds) and the per-key entry map. -/
structure MemLimiter where
  limit : Int
  window : Nat
  entries : String → Option MemEntry

/-- Store an entry under a key. -/
def setEntry (f : String → Option MemEntry) (key : String) (e : MemEntry) :
    String → Option MemEntry :=
  fun k => if k = key then some e else f k

/-- memoryLimiter.Allow from src/internal/infra/ratelimit/memory.go:
a missing entry, or one whose reset instant has passed (now strictly after
reset), restarts at count 0 with reset = now + window; a count at or above
the limit is denied with retryAfter = reset - now; otherwise the count is
incremented and the call is allowed. -/
def memAllow (l : MemLimiter) (key : String) (now : Nat) :
    (Bool × Int) × MemLimiter :=
  if key = "" || l.limit ≤ 0 then
    ((true, 0), l)
  else
    let e :=
      match l.entries key with
      | some e => if now > e.reset then MemEntry.mk 0 (now + l.window) else e
      | none => MemEntry.mk 0 (now + l.window)
    if (e.count : Int) ≥ l.limit then
      ((false, (e.reset : Int) - (now : Int)), { l with entries := setEntry l.entries key e })
    else
      ((true, 0), { l with entries := setEntry l.entries key ⟨e.count + 1, e.reset⟩ })

/-- Run a sequence of Allow calls on one key at the given instants,
collecting the (allowed, retryAfter) results. -/
def memRun (l : MemLimiter) (key : String) : List Nat → List (Bool × Int) × MemLimiter
  | [] => ([], l)
  | t :: ts =>
    let r := memAllow l key t
    let rest := memRun r.2 key ts
    (r.1 :: rest.1, rest.2)

/-- A concrete limiter (limit 1, window 10 seconds, no entries) used to
exhibit the reset-boundary behaviour on explicit inputs. -/
def cexLimiter : MemLimiter :=
  ⟨1, 10, fun _ => none⟩

/-! ## Idempotency middleware
(src/internal/api/middleware/user_ratelimit.go, IdempotencyMiddleware) -/

/-- A cached idempotency record as stored under resp keys
(src/internal/infra/idempotency, StoredResponse). -/
structure StoredResponse where
  status : Nat
  body : String
  contentType : String
  headers : List (String × String)
  requestHash : String
  deriving DecidableEq, Repr

/-- What the middleware does with a request: run the inner handler
(`bypassed` records a degradation bypass), answer directly with an error
status and fixed body, or replay a cached response.  Only `execute`
runs the inner handler. -/
inductive IdemOutcome
  | execute (bypassed : Bool)
  | reject (status : Nat) (body : String)
  | replay (r : StoredResponse)
  deriving DecidableEq, Repr

/-- strings.TrimSpace: drop leading and trailing whitespace. -/
def trimSpace (s : String) : String :=
  ⟨(((s.toList.dropWhile Char.isWhitespace).reverse.dropWhile
      Char.isWhitespace).reverse)⟩

/-- isMutatingMethod from the middleware source. -/
def isMutatingMethod (method : String) : Bool :=
  method = "POST" || method = "PATCH" || method = "PUT" || method = "DELETE"

/-- One request as the middleware sees it.  `reqHash` is the fingerprint
BuildRequestHash computes over method, route pattern, content type, query
and canonical body; it is carried as an already-computed value. -/
structure IdemRequest where
  method : String
  idemKeyHeader : String
  userID : Option Int
  routePattern : String
  bodyReadErr : Bool
  reqHash : String
  deriving DecidableEq, Repr

/-- The middleware collaborators for one request: whether the middleware is
enabled, whether store and locker handles exist, the result of the store
Get on the resp key, and the result of the in-flight lock Acquire
(error / not acquired / acquired with token). -/
structure IdemEnv where
  enabled : Bool
  storeAvailable : Bool
  getResult : Except Unit (Option StoredResponse)
  lockResult : Except Unit (Option String)
  deriving Repr

/-- IdempotencyMiddleware.Handler decision logic from
src/internal/api/middleware/user_ratelimit.go, in source order: disabled,
non-mutating method, empty (trimmed) Idempotency-Key header or anonymous
request pass through; an empty route pattern or any store / lock error
bypasses; a cached record with a different request hash is a 409 conflict
and with the same hash is replayed; a held in-flight lock is a 409. -/
def idemHandler (env : IdemEnv) (r : IdemRequest) : IdemOutcome :=
  if !env.enabled then .execute false
  else if !isMutatingMethod r.method then .execute false
  else if trimSpace r.idemKeyHeader = "" then .execute false
  else if r.userID.isNone then .execute false
  else if r.routePattern = "" then .execute true
  else if r.bodyReadErr then .reject 400 "invalid request"
  else if !env.storeAvailable then .execute true
  else
    match env.getResult with
    | .error _ => .execute true
    | .ok (some cached) =>
      if cached.requestHash ≠ r.reqHash then
        .reject 409 "idempotency key reused with different payload"
      else
        .replay cached
    | .ok none =>
      match env.lockResult with
      | .error _ => .execute true
      | .ok none => .reject 409 "request already in progress"
      | .ok (some _) => .execute false

/-! ## Refresh-token rotation (AuthService.Refresh, src/unnamed/part_010,
with the transaction semantics of SessionRepository.WithTx,
src/unnamed/part_021: the callback error rolls the transaction back) -/

/-- A sessions-table row (the columns Refresh reads and writes).
Token hashes are Nats: hashToken (SHA-256 of the opaque token string) is
modelled as the identity on token identifiers, which is faithful because it
is injective on the tokens the service mints. -/
structure Session where
  userID : Int
  tokenHash : Nat
  expiresAt : Nat
  revokedAt : Option Nat
  deriving DecidableEq, Repr

/-- A refresh token presented to or minted by the service: its identifier
(whose hash it also is), whether parseToken accepts it (signature, issuer,
typ=refresh, parseable subject), and the subject user id. -/
structure RefreshTok where
  tokenID : Nat
  valid : Bool
  userID : Int
  deriving DecidableEq, Repr

/-- The auth store state: the sessions table plus a counter supplying the
fresh random token identifiers newTokenPair draws. -/
structure AuthState where
  sessions : List Session
  nextToken : Nat
  deriving Repr

/-- Injected store errors for the three store calls inside the refresh
critical section. -/
structure StoreFaults where
  lookup : Bool
  revoke : Bool
  insert : Bool
  deriving DecidableEq, Repr

/-- No store faults: the store answers every call. -/
def noFaults : StoreFaults := ⟨false, false, false⟩

/-- Errors AuthService.Refresh can return: its own tagged errors plus a
propagated raw store error. -/
inductive AuthErr
  | invalidToken
  | tokenReuse
  | store
  deriving DecidableEq, Repr

/-- SELECT ... FROM sessions WHERE token_hash = ? (unique index; the first
match is the row). -/
def findSession (sessions : List Session) (hash : Nat) : Option Session :=
  sessions.find? fun s => s.tokenHash == hash

/-- UPDATE sessions SET revoked_at = ? WHERE token_hash = ?. -/
def revokeSession (sessions : List Session) (hash : Nat) (now : Nat) :
    List Session :=
  sessions.map fun s =>
    if s.tokenHash == hash then { s with revokedAt := some now } else s

/-- newTokenPair: mint a fresh refresh token for the user (the access token
is not part of the session state). -/
def mintRefresh (st : AuthState) (userID : Int) : RefreshTok × AuthState :=
  (⟨st.nextToken, true, userID⟩, { st with nextToken := st.nextToken + 1 })

/-- AuthService.Refresh from src/unnamed/part_010: parse the token, then in
one transaction look the session up by token hash under row lock, reject a
missing row as invalid, a revoked row as reuse, an expired row as invalid;
otherwise mint a new pair, revoke the current row and insert the new
session with expiry now + refreshTTL.  Any error inside the callback makes
WithTx roll back, so a state is only produced on success. -/
def Refresh (refreshTTL : Nat) (faults : StoreFaults) (st : AuthState)
    (tok : RefreshTok) (now : Nat) : Except AuthErr (AuthState × RefreshTok) :=
  if !tok.valid then .error .invalidToken
  else if faults.lookup then .error .store
  else
    match findSession st.sessions tok.tokenID with
    | none => .error .invalidToken
    | some session =>
      if session.revokedAt.isSome then .error .tokenReuse
      else if session.expiresAt < now then .error .invalidToken
      else
        let m := mintRefresh st tok.userID
        let newTok := m.1
        let st1 := m.2
        if faults.revoke then .error .store
        else
          let sessions1 := revokeSession st1.sessions tok.tokenID now
          if faults.insert then .error .store
          else
            let newSession : Session := ⟨tok.userID, newTok.tokenID, now + refreshTTL, none⟩
            .ok ({ st1 with sessions := sessions1 ++ [newSession] }, newTok)

/-- The sessions-table state observable after a Refresh call: WithTx rolls
back on error, so an erroring call leaves the table as it was. -/
def refreshFinalState (st : AuthState) (r : Except AuthErr (AuthState × RefreshTok)) :
    AuthState :=
  match r with
  | .ok (st1, _) => st1
  | .error _ => st

/-- An HTTP response as written by response.Error / response.JSON. -/
structure HttpResp where
  status : Nat
  body : String
  deriving DecidableEq, Repr

/-- The error mapping of AuthHandler.Refresh (src/unnamed/part_024): both
the tagged-reuse/invalid branch and the fallthrough branch answer
401 with the fixed body "invalid token". -/
def refreshErrResp (e : AuthErr) : HttpResp :=
  match e with
  | .tokenReuse => ⟨401, "invalid token"⟩
  | .invalidToken => ⟨401, "invalid token"⟩
  | .store => ⟨401, "invalid token"⟩

/-- Every session row hash in the table is below the fresh-token counter,
so every token newTokenPair mints is new to the table. -/
def HashesFresh (st : AuthState) : Prop :=
  ∀ s ∈ st.sessions, s.tokenHash < st.nextToken

/-! ## Transactional task update with audit history
(src/internal/service/task.go) -/

/-- The JSON values that can appear in a task patch once decoded.  `other`
stands for any JSON value (array, object, non-integral number, boolean)
that fails to unmarshal into every patch field type. -/
inductive JVal
  | jnull
  | jstr (s : String)
  | jint (n : Int)
  | other
  deriving DecidableEq, Repr

/-- A tasks-table row (the columns UpdateTask reads and writes; named
TaskRow because Task is taken by the Lean prelude).  The DATE column
due_date is carried in its yyyy-mm-dd form, the form the service both
compares and records. -/
structure TaskRow where
  id : Int
  teamID : Int
  title : String
  description : Option String
  status : String
  priority : String
  assigneeID : Option Int
  dueDate : Option String
  deriving DecidableEq, Repr

/-- A task_history row as built by taskHistoryEntry: old and new values are
JSON-encoded (mustJSON), with Go nil marshalling to JSON null. -/
structure HistEntry where
  taskID : Int
  changedBy : Option Int
  fieldName : String
  oldValue : JVal
  newValue : JVal
  deriving DecidableEq, Repr

/-- isValidStatus from src/internal/service/task.go. -/
def isValidStatus (v : String) : Bool :=
  v = "todo" || v = "in_progress" || v = "done"

/-- isValidPriority from src/internal/service/task.go. -/
def isValidPriority (v : String) : Bool :=
  v = "low" || v = "medium" || v = "high"

/-- isKnownTaskField from src/internal/service/task.go. -/
def isKnownTaskField (field : String) : Bool :=
  field = "title" || field = "description" || field = "status" ||
    field = "assignee_id" || field = "priority" || field = "due_date"

/-- allowedTaskFields from src/internal/service/task.go, as a predicate on
field names. -/
def allowedTaskFields (role : String) : String → Bool :=
  if role = RoleOwner || role = RoleAdmin then
    fun k =>
      k = "title" || k = "description" || k = "status" ||
        k = "assignee_id" || k = "priority" || k = "due_date"
  else if role = RoleMember then
    fun k => k = "status" || k = "assignee_id"
  else
    fun _ => false

/-- Leap years per the proleptic Gregorian calendar Go's time package
uses. -/
def isLeapYear (y : Nat) : Bool :=
  y % 4 = 0 && (y % 100 ≠ 0 || y % 400 = 0)

/-- Days in a month, with February depending on the leap year. -/
def daysInMonth (y m : Nat) : Nat :=
  if m = 2 then (if isLeapYear y then 29 else 28)
  else if m = 4 || m = 6 || m = 9 || m = 11 then 30
  else 31

/-- Numeric value of a decimal digit character. -/
def digitVal (c : Char) : Nat := c.toNat - 48

/-- time.Parse("2006-01-02", s): exactly four year digits, two month digits
and two day digits separated by dashes, naming a real calendar date.
Formatting the parsed date back yields the same string, so a valid string
is kept as the canonical date value. -/
def isValidDate (s : String) : Bool :=
  match s.toList with
  | [y1, y2, y3, y4, c1, m1, m2, c2, d1, d2] =>
    if c1 = '-' && c2 = '-' &&
        [y1, y2, y3, y4, m1, m2, d1, d2].all Char.isDigit then
      let y := ((digitVal y1 * 10 + digitVal y2) * 10 + digitVal y3) * 10 + digitVal y4
      let m := digitVal m1 * 10 + digitVal m2
      let d := digitVal d1 * 10 + digitVal d2
      decide (1 ≤ m) && decide (m ≤ 12) && decide (1 ≤ d) && decide (d ≤ daysInMonth y m)
    else false
  | _ => false

/-- The parsed patch: one optional slot per known field, `some` when the
field occurred in the payload.  description, assignee_id and due_date
distinguish an explicit null (`some none`) from absence (`none`). -/
structure ParsedPatch where
  title : Option String := none
  description : Option (Option String) := none
  status : Option String := none
  priority : Option String := none
  assigneeID : Option (Option Int) := none
  dueDate : Option (Option String) := none
  deriving DecidableEq, Repr

/-- Whether no field of the patch is set (len(parsed) == 0). -/
def ParsedPatch.isEmpty (p : ParsedPatch) : Bool :=
  p.title.isNone && p.description.isNone && p.status.isNone &&
    p.priority.isNone && p.assigneeID.isNone && p.dueDate.isNone

/-- The field names present in the patch (the keys of the parsed map). -/
def ParsedPatch.fields (p : ParsedPatch) : List String :=
  (if p.title.isSome then ["title"] else []) ++
    (if p.description.isSome then ["description"] else []) ++
    (if p.status.isSome then ["status"] else []) ++
    (if p.priority.isSome then ["priority"] else []) ++
    (if p.assigneeID.isSome then ["assignee_id"] else []) ++
    (if p.dueDate.isSome then ["due_date"] else [])

/-- json.Unmarshal of a value into a Go string: a JSON string decodes, JSON
null is accepted and leaves the zero value "", everything else errors. -/
def decodeGoString : JVal → Except SvcErr String
  | .jstr s => .ok s
  | .jnull => .ok ""
  | _ => .error .badRequest

/-- json.Unmarshal into a Go *string. -/
def decodeGoOptString : JVal → Except SvcErr (Option String)
  | .jnull => .ok none
  | .jstr s => .ok (some s)
  | _ => .error .badRequest

/-- json.Unmarshal into a Go *int64. -/
def decodeGoOptInt : JVal → Except SvcErr (Option Int)
  | .jnull => .ok none
  | .jint n => .ok (some n)
  | _ => .error .badRequest

/-- Process one raw patch pair exactly as the switch in
TaskService.parseTaskPatch does: validate, and set the field slot.
`member uid` is s.members.IsMember(ctx, teamID, uid); a `.error` from it is
the propagated store error. -/
def parsePatchField (member : Int → Except Unit Bool) (p : ParsedPatch)
    (key : String) (val : JVal) : Except SvcErr ParsedPatch :=
  if !isKnownTaskField key then .error .badRequest
  else if key = "title" then
    match decodeGoString val with
    | .error e => .error e
    | .ok v =>
      if trimSpace v = "" then .error .badRequest
      else .ok { p with title := some v }
  else if key = "description" then
    match decodeGoOptString val with
    | .error e => .error e
    | .ok v => .ok { p with description := some v }
  else if key = "status" then
    match decodeGoString val with
    | .error e => .error e
    | .ok v =>
      if !isValidStatus v then .error .badRequest
      else .ok { p with status := some v }
  else if key = "priority" then
    match decodeGoString val with
    | .error e => .error e
    | .ok v =>
      if !isValidPriority v then .error .badRequest
      else .ok { p with priority := some v }
  else if key = "assignee_id" then
    match decodeGoOptInt val with
    | .error e => .error e
    | .ok none => .ok { p with assigneeID := some none }
    | .ok (some uid) =>
      match member uid with
      | .error _ => .error .storeFail
      | .ok ok =>
        if !ok then .error .badRequest
        else .ok { p with assigneeID := some (some uid) }
  else
    match decodeGoOptString val with
    | .error e => .error e
    | .ok none => .ok { p with dueDate := some none }
    | .ok (some s) =>
      if !isValidDate s then .error .badRequest
      else .ok { p with dueDate := some (some s) }

/-- The loop of parseTaskPatch over the payload pairs. -/
def parsePatchList (member : Int → Except Unit Bool) :
    ParsedPatch → List (String × JVal) → Except SvcErr ParsedPatch
  | p, [] => .ok p
  | p, (k, v) :: rest =>
    match parsePatchField member p k v with
    | .error e => .error e
    | .ok p1 => parsePatchList member p1 rest

/-- TaskService.parseTaskPatch: fold the payload pairs through the per-field
switch, then reject an empty patch. -/
def parseTaskPatch (member : Int → Except Unit Bool)
    (raw : List (String × JVal)) : Except SvcErr ParsedPatch :=
  match parsePatchList member {} raw with
  | .error e => .error e
  | .ok p => if p.isEmpty then .error .badRequest else .ok p

/-- mustJSON of a Go string / nil. -/
def jsonOfOptString : Option String → JVal
  | none => .jnull
  | some s => .jstr s

/-- mustJSON of a Go int64 / nil. -/
def jsonOfOptInt : Option Int → JVal
  | none => .jnull
  | some n => .jint n

/-- taskHistoryEntry from src/internal/service/task.go. -/
def taskHistoryEntry (taskID userID : Int) (field : String)
    (oldValue newValue : JVal) : HistEntry :=
  ⟨taskID, some userID, field, oldValue, newValue⟩

/-- The updates map buildTaskDiffEntries produces (the SET clause of the
task-row UPDATE): one optional slot per column, `some` when the column is
written; an inner `none` writes SQL NULL. -/
structure TaskUpdates where
  title : Option String := none
  description : Option (Option String) := none
  status : Option String := none
  priority : Option String := none
  assigneeID : Option (Option Int) := none
  dueDate : Option (Option String) := none
  deriving DecidableEq, Repr

/-- len(updates) == 0. -/
def TaskUpdates.isEmpty (u : TaskUpdates) : Bool :=
  u.title.isNone && u.description.isNone && u.status.isNone &&
    u.priority.isNone && u.assigneeID.isNone && u.dueDate.isNone

/-- The title arm of buildTaskDiffEntries: an unchanged value is dropped,
a changed one yields the column write and one history entry. -/
def diffTitle (task : TaskRow) (userID : Int) :
    Option String → Option (String × HistEntry)
  | none => none
  | some v =>
    if task.title = v then none
    else some (v, taskHistoryEntry task.id userID "title" (.jstr task.title) (.jstr v))

/-- The description arm: old value is the stored string or nil; an explicit
null patch clears the column unless it is already NULL; a string patch is
dropped only when the column holds the same string. -/
def diffDescription (task : TaskRow) (userID : Int) :
    Option (Option String) → Option (Option String × HistEntry)
  | none => none
  | some none =>
    if task.description.isNone then none
    else some (none, taskHistoryEntry task.id userID "description"
      (jsonOfOptString task.description) .jnull)
  | some (some v) =>
    if task.description = some v then none
    else some (some v, taskHistoryEntry task.id userID "description"
      (jsonOfOptString task.description) (.jstr v))

/-- The status arm. -/
def diffStatus (task : TaskRow) (userID : Int) :
    Option String → Option (String × HistEntry)
  | none => none
  | some v =>
    if task.status = v then none
    else some (v, taskHistoryEntry task.id userID "status" (.jstr task.status) (.jstr v))

/-- The priority arm. -/
def diffPriority (task : TaskRow) (userID : Int) :
    Option String → Option (String × HistEntry)
  | none => none
  | some v =>
    if task.priority = v then none
    else some (v, taskHistoryEntry task.id userID "priority" (.jstr task.priority) (.jstr v))

/-- The assignee_id arm. -/
def diffAssignee (task : TaskRow) (userID : Int) :
    Option (Option Int) → Option (Option Int × HistEntry)
  | none => none
  | some none =>
    if task.assigneeID.isNone then none
    else some (none, taskHistoryEntry task.id userID "assignee_id"
      (jsonOfOptInt task.assigneeID) .jnull)
  | some (some v) =>
    if task.assigneeID = some v then none
    else some (some v, taskHistoryEntry task.id userID "assignee_id"
      (jsonOfOptInt task.assigneeID) (.jint v))

/-- The due_date arm: values are compared and recorded in their yyyy-mm-dd
form. -/
def diffDueDate (task : TaskRow) (userID : Int) :
    Option (Option String) → Option (Option String × HistEntry)
  | none => none
  | some none =>
    if task.dueDate.isNone then none
    else some (none, taskHistoryEntry task.id userID "due_date"
      (jsonOfOptString task.dueDate) .jnull)
  | some (some v) =>
    if task.dueDate = some v then none
    else some (some v, taskHistoryEntry task.id userID "due_date"
      (jsonOfOptString task.dueDate) (.jstr v))

/-- buildTaskDiffEntries from src/internal/service/task.go: for each patched
field whose parsed value differs from the task's current value, record the
column write and one history entry.  The Go map iteration order is
arbitrary; entries are emitted here in a fixed field order. -/
def buildTaskDiffEntries (task : TaskRow) (userID : Int) (p : ParsedPatch) :
    TaskUpdates × List HistEntry :=
  let dT := diffTitle task userID p.title
  let dD := diffDescription task userID p.description
  let dS := diffStatus task userID p.status
  let dP := diffPriority task userID p.priority
  let dA := diffAssignee task userID p.assigneeID
  let dU := diffDueDate task userID p.dueDate
  (⟨dT.map Prod.fst, dD.map Prod.fst, dS.map Prod.fst,
      dP.map Prod.fst, dA.map Prod.fst, dU.map Prod.fst⟩,
    (dT.map Prod.snd).toList ++ (dD.map Prod.snd).toList ++
      (dS.map Prod.snd).toList ++ (dP.map Prod.snd).toList ++
      (dA.map Prod.snd).toList ++ (dU.map Prod.snd).toList)

/-- UPDATE tasks SET ... WHERE id = ?: apply the written columns to a row. -/
def applyUpdates (t : TaskRow) (u : TaskUpdates) : TaskRow :=
  { t with
    title := u.title.getD t.title
    description := u.description.getD t.description
    status := u.status.getD t.status
    priority := u.priority.getD t.priority
    assigneeID := u.assigneeID.getD t.assigneeID
    dueDate := u.dueDate.getD t.dueDate }

/-- The relational state UpdateTask touches: the tasks table and the
append-only task_history table. -/
structure TaskStore where
  tasks : List TaskRow
  history : List HistEntry
  deriving DecidableEq, Repr

/-- SELECT ... FROM tasks WHERE id = ? (primary key; first match). -/
def findTask (tasks : List TaskRow) (taskID : Int) : Option TaskRow :=
  tasks.find? fun t => t.id == taskID

/-- Collaborator answers for one UpdateTask call: the role lookup
(GetRole: store error / no row / role) and the team-membership check the
patch parser uses for assignee_id. -/
structure TaskEnv where
  getRole : Except Unit (Option String)
  isMember : Int → Except Unit Bool

/-- Injected store errors for the store calls of the UpdateTask
transaction. -/
structure TaskFaults where
  beginTx : Bool
  getTask : Bool
  update : Bool
  insertHist : Bool
  commit : Bool
  deriving DecidableEq, Repr

/-- No task-store faults. -/
def noTaskFaults : TaskFaults := ⟨false, false, false, false, false⟩

/-- TaskService.UpdateTask from src/internal/service/task.go, the
transactional branch taken when both the db handle and the history
repository are present (the production wiring): fetch the row under lock,
check the caller's role and per-role field allow-list, parse the patch,
compute the diff, and apply the column updates together with the history
batch insert in one transaction; the deferred rollback undoes everything
when any step errors, so a state is only produced on success.  An empty
diff returns without writing. -/
def UpdateTask (env : TaskEnv) (faults : TaskFaults) (st : TaskStore)
    (userID taskID : Int) (raw : List (String × JVal)) :
    Except SvcErr (TaskStore × Int) :=
  if faults.beginTx then .error .storeFail
  else if faults.getTask then .error .storeFail
  else
    match findTask st.tasks taskID with
    | none => .error .notFound
    | some task =>
      match env.getRole with
      | .error _ => .error .storeFail
      | .ok none => .error .forbidden
      | .ok (some role) =>
        match parseTaskPatch env.isMember raw with
        | .error e => .error e
        | .ok p =>
          if !(p.fields.all (allowedTaskFields role)) then .error .forbidden
          else if (buildTaskDiffEntries task userID p).1.isEmpty then
            .ok (st, task.teamID)
          else if faults.update then .error .storeFail
          else if faults.insertHist then .error .storeFail
          else if faults.commit then .error .storeFail
          else
            .ok (⟨st.tasks.map fun t => if t.id == taskID then
                applyUpdates t (buildTaskDiffEntries task userID p).1 else t,
              st.history ++ (buildTaskDiffEntries task userID p).2⟩, task.teamID)

/-- The store state observable after an UpdateTask call: the deferred
rollback leaves an erroring call's state as it was. -/
def updateFinalState (st : TaskStore) (r : Except SvcErr (TaskStore × Int)) :
    TaskStore :=
  match r with
  | .ok (st1, _) => st1
  | .error _ => st

/-! ## Concrete instances used to exercise the theorems -/

/-- An empty key-value store. -/
def emptyKV : KVStore := fun _ => none

/-- A valid refresh token for user 7 whose hash is 0. -/
def wTok : RefreshTok := ⟨0, true, 7⟩

/-- A sessions table holding one active session for wTok. -/
def wSt : AuthState := ⟨[⟨7, 0, 50, none⟩], 1⟩

/-- The state after Refresh 100 noFaults wSt wTok 3: the old session is
revoked at 3 and the rotated session (hash 1, expiry 103) is inserted. -/
def wSt1 : AuthState := ⟨[⟨7, 0, 50, some 3⟩, ⟨7, 1, 103, none⟩], 2⟩

/-- The token Refresh 100 noFaults wSt wTok 3 mints. -/
def wTok1 : RefreshTok := ⟨1, true, 7⟩

/-- A task environment where the caller is a member and everyone belongs to
the team. -/
def wTaskEnv : TaskEnv := ⟨.ok (some "member"), fun _ => .ok true⟩

/-- A one-task store: task 1 of team 2, title "t", status todo, priority
low, no description, assignee or due date; empty history. -/
def wTaskStore : TaskStore := ⟨[⟨1, 2, "t", none, "todo", "low", none, none⟩], []⟩

/-- An invite environment in which every collaborator answers and inviter
role admin is found; used to drive InviteByEmail to its role check. -/
def wInviteEnv : InviteEnv :=
  ⟨false, some "acme", false, some "admin", false, some 5, true,
    .acquired "tok", false, false, true, false, false, false⟩

/-- A stored idempotency response with request hash "h1". -/
def wStored : StoredResponse := ⟨201, "made", "application/json", [], "h1"⟩

/-- A mutating request whose fingerprint is "h2". -/
def wIdemReq : IdemRequest := ⟨"POST", "k1", some 4, "/api/v1/teams", false, "h2"⟩

/-- A middleware environment that finds wStored under the response key. -/
def wIdemEnv : IdemEnv := ⟨true, true, .ok (some wStored), .ok (some "tok")⟩

/-! ## Theorems -/

/-- canInvite returns true only on the member and admin target roles. -/
theorem canInvite_true_target (r t : String) (h : canInvite r t = true) :
    t = RoleMember ∨ t = RoleAdmin := by
  unfold canInvite at h
  split at h
  · rcases Bool.or_eq_true_iff.mp h with h1 | h1
    · exact Or.inl (by simpa using h1)
    · exact Or.inr (by simpa using h1)
  · split at h
    · exact Or.inl (by simpa using h)
    · exact absurd h (by simp)

/-- A successful inviteFinish returns exactly the inserted membership
row. -/
theorem inviteFinish_ok (env : InviteEnv) (teamID : Int) (targetRole : String)
    (uid : Int) (row : MemberRow)
    (h : inviteFinish env teamID targetRole uid = .ok row) :
    row = ⟨teamID, uid, targetRole⟩ := by
  unfold inviteFinish at h
  repeat' split at h
  all_goals first
    | exact (Except.ok.inj h).symm
    | exact absurd h (by simp)

/-- A successful InviteByEmail inserts the requested target role for the
resolved user, and only after canInvite admitted it. -/
theorem invite_ok_role (env : InviteEnv) (teamID : Int) (targetRole : String)
    (row : MemberRow) (h : InviteByEmail env teamID targetRole = .ok row) :
    row.role = targetRole ∧
      ∃ r, env.inviterRole = some r ∧ canInvite r targetRole = true := by
  unfold InviteByEmail at h
  split at h
  · exact absurd h (by simp)
  split at h
  · exact absurd h (by simp)
  next _nm _hnm =>
  split at h
  · exact absurd h (by simp)
  split at h
  · exact absurd h (by simp)
  next r hr =>
  split at h
  · exact absurd h (by simp)
  next hci =>
  have hci2 : canInvite r targetRole = true := by
    revert hci; simp
  split at h
  · exact absurd h (by simp)
  split at h
  · exact absurd h (by simp)
  next uid _hu =>
  refine ⟨?_, r, hr, hci2⟩
  split at h
  · split at h
    · exact (inviteFinish_ok env teamID targetRole uid row h ▸ rfl)
    · exact absurd h (by simp)
    · exact (inviteFinish_ok env teamID targetRole uid row h ▸ rfl)
  · exact (inviteFinish_ok env teamID targetRole uid row h ▸ rfl)

/-- C7: canInvite implements exactly the authorization matrix — owner may
invite member and admin targets, admin only member, member no one — and
whenever the matrix denies an (inviter, team, target) combination,
InviteByEmail returns ErrForbidden. -/
theorem canInvite_matrix_and_forbidden :
    (canInvite RoleOwner RoleMember = true ∧ canInvite RoleOwner RoleAdmin = true ∧
      canInvite RoleAdmin RoleMember = true ∧ canInvite RoleAdmin RoleAdmin = false ∧
      canInvite RoleMember RoleMember = false ∧ canInvite RoleMember RoleAdmin = false) ∧
    ∀ (env : InviteEnv) (teamID : Int) (r targetRole : String),
      env.teamErr = false → env.team.isSome = true → env.roleErr = false →
      env.inviterRole = some r → canInvite r targetRole = false →
      InviteByEmail env teamID targetRole = .error .forbidden := by
  constructor
  · exact ⟨by decide, by decide, by decide, by decide, by decide, by decide⟩
  · intro env teamID r targetRole h1 h2 h3 h4 h5
    obtain ⟨nm, hnm⟩ := Option.isSome_iff_exists.mp h2
    simp [InviteByEmail, h1, h3, hnm, h4, h5]

/-- Witness for C7: an admin inviting an admin target is forbidden. -/
theorem canInvite_matrix_and_forbidden_w :
    InviteByEmail wInviteEnv 3 "admin" = .error .forbidden :=
  canInvite_matrix_and_forbidden.2 wInviteEnv 3 "admin" "admin" rfl rfl rfl rfl
    (by decide)

/-- C8: canInvite is false for every target role outside member and admin,
for every inviter role including owner; consequently a successful
InviteByEmail never inserts a membership row with role owner. -/
theorem canInvite_never_owner_target :
    (∀ inviterRole targetRole : String,
      targetRole ≠ RoleMember → targetRole ≠ RoleAdmin →
      canInvite inviterRole targetRole = false) ∧
    ∀ (env : InviteEnv) (teamID : Int) (targetRole : String) (row : MemberRow),
      InviteByEmail env teamID targetRole = .ok row → row.role ≠ RoleOwner := by
  constructor
  · intro r t h1 h2
    cases hc : canInvite r t
    · rfl
    · rcases canInvite_true_target r t hc with h | h
      · exact absurd h h1
      · exact absurd h h2
  · intro env teamID targetRole row h
    obtain ⟨hrole, r, _, hci⟩ := invite_ok_role env teamID targetRole row h
    intro hcon
    rcases canInvite_true_target r targetRole hci with h1 | h1 <;>
      rw [hrole, h1] at hcon <;> exact absurd hcon (by decide)

/-- Witness for C8: nobody can invite an owner, not even an owner. -/
theorem canInvite_never_owner_target_w :
    canInvite "owner" "owner" = false :=
  canInvite_never_owner_target.1 "owner" "owner" (by decide) (by decide)

/-- C10: Locker.Release answers nil without contacting the store when the
key or token is empty or the locker or its client is missing, and an error
can only come out of a release whose key and token are both non-empty and
whose compare-and-delete script call itself fails. -/
theorem locker_release_noop_conditions
    (l : Option LockerHandle) (key token : String) (kv : KVStore) (sf : Bool) :
    ((key = "" ∨ token = "" ∨ l = none ∨ l = some ⟨false⟩) →
      (lockerRelease l key token kv sf).errored = false ∧
      (lockerRelease l key token kv sf).contacted = false ∧
      (lockerRelease l key token kv sf).kv = kv) ∧
    ((lockerRelease l key token kv sf).errored = true →
      key ≠ "" ∧ token ≠ "" ∧ sf = true) := by
  cases l with
  | none => simp [lockerRelease]
  | some h =>
    cases h with
    | mk hc =>
      cases hc <;> by_cases hk : key = "" <;> by_cases ht : token = "" <;>
        cases sf <;> simp_all [lockerRelease]

/-- Witness for C10: a nil locker releases nothing and reports no error. -/
theorem locker_release_noop_conditions_w :
    (lockerRelease none "lock:invite:1:2" "tok" emptyKV false).errored = false ∧
    (lockerRelease none "lock:invite:1:2" "tok" emptyKV false).contacted = false ∧
    (lockerRelease none "lock:invite:1:2" "tok" emptyKV false).kv = emptyKV :=
  (locker_release_noop_conditions none "lock:invite:1:2" "tok" emptyKV false).1
    (Or.inr (Or.inr (Or.inl rfl)))

/-- C9: on every failed attempt whose incremented failure counter has
reached or passed maxAttempts — not only the first such attempt —
OnFailure reports the lockout with retryAfter = lockTTL and re-arms the
lock key to a full lockTTL from the current instant. -/
theorem lockout_rearm_on_failure
    (cfg : LockoutCfg) (st : LockoutState) (now : Nat)
    (hmax : 0 < cfg.maxAttempts) (httl : 0 < cfg.lockTTL)
    (hcount : cfg.maxAttempts ≤ ((incrFail st now).1 : Int)) :
    (lockoutOnFailure cfg st now).1 = true ∧
    (lockoutOnFailure cfg st now).2.1 = cfg.lockTTL ∧
    (lockoutOnFailure cfg st now).2.2.lockExpiry = some (now + cfg.lockTTL.toNat) := by
  simp only [lockoutOnFailure]
  split
  · next hguard =>
    exfalso
    simp only [Bool.or_eq_true, decide_eq_true_eq] at hguard
    omega
  · split
    · next hlt => exact absurd hlt (by omega)
    · exact ⟨rfl, rfl, rfl⟩

/-- Witness for C9: a fourth consecutive failure with maxAttempts = 3 and
lockTTL = 60 re-arms the lock to now + 60. -/
theorem lockout_rearm_on_failure_w :
    (lockoutOnFailure ⟨3, 60⟩ ⟨some (3, some 100), none⟩ 10).1 = true ∧
    (lockoutOnFailure ⟨3, 60⟩ ⟨some (3, some 100), none⟩ 10).2.1 = 60 ∧
    (lockoutOnFailure ⟨3, 60⟩ ⟨some (3, some 100), none⟩ 10).2.2.lockExpiry = some 70 := by
  have h := lockout_rearm_on_failure ⟨3, 60⟩ ⟨some (3, some 100), none⟩ 10
    (by decide) (by decide) (by decide)
  simpa using h

/-- C6: when a stored idempotency record exists for the presented
(user, route, key), a request whose fingerprint differs from the stored
request_hash is answered 409 "idempotency key reused with different
payload" without running the inner handler, and a request whose fingerprint
matches is answered by replaying the cached response, also without running
the handler. -/
theorem idempotency_fingerprint_conflict_replay
    (env : IdemEnv) (r : IdemRequest) (cached : StoredResponse)
    (hen : env.enabled = true) (hm : isMutatingMethod r.method = true)
    (hk : trimSpace r.idemKeyHeader ≠ "") (hu : r.userID.isNone = false)
    (hrp : r.routePattern ≠ "") (hb : r.bodyReadErr = false)
    (hav : env.storeAvailable = true)
    (hget : env.getResult = .ok (some cached)) :
    (cached.requestHash ≠ r.reqHash →
      idemHandler env r = .reject 409 "idempotency key reused with different payload" ∧
      ∀ b, idemHandler env r ≠ .execute b) ∧
    (cached.requestHash = r.reqHash →
      idemHandler env r = .replay cached ∧
      ∀ b, idemHandler env r ≠ .execute b) := by
  constructor <;> intro hh <;>
    simp [idemHandler, hen, hm, hk, hu, hrp, hb, hav, hget, hh]

/-- Witness for C6: the fingerprint "h2" differs from the stored "h1", so
the concrete request is rejected with the fixed conflict body. -/
theorem idempotency_fingerprint_conflict_replay_w :
    idemHandler wIdemEnv wIdemReq = .reject 409 "idempotency key reused with different payload" ∧
    ∀ b, idemHandler wIdemEnv wIdemReq ≠ .execute b :=
  (idempotency_fingerprint_conflict_replay wIdemEnv wIdemReq wStored rfl rfl
    (by decide) rfl (by decide) rfl rfl rfl).1 (by decide)

/-- C4: whenever Refresh fails — in particular on any store error injected
into the critical section — the transaction is rolled back (the observable
state is the initial one) and the HTTP layer answers 401 with the fixed
body "invalid token", the same response for every failure cause; moreover a
lookup store fault on a parseable token really does surface as an error. -/
theorem refresh_store_error_opaque
    (ttl : Nat) (faults : StoreFaults) (st : AuthState) (tok : RefreshTok)
    (now : Nat) (e : AuthErr)
    (he : Refresh ttl faults st tok now = .error e) :
    refreshErrResp e = ⟨401, "invalid token"⟩ ∧
    refreshFinalState st (Refresh ttl faults st tok now) = st ∧
    (tok.valid = true → faults.lookup = true → e = .store) := by
  refine ⟨?_, ?_, ?_⟩
  · cases e <;> rfl
  · simp [refreshFinalState, he]
  · intro hv hl
    unfold Refresh at he
    rw [if_neg (by simp [hv]), if_pos hl] at he
    exact (Except.error.inj he).symm

/-- Witness for C4: a lookup store fault on a live session surfaces as the
fixed 401 response and leaves the sessions table unchanged. -/
theorem refresh_store_error_opaque_w :
    refreshErrResp .store = ⟨401, "invalid token"⟩ ∧
    refreshFinalState wSt (Refresh 100 ⟨true, false, false⟩ wSt wTok 3) = wSt ∧
    (wTok.valid = true → (⟨true, false, false⟩ : StoreFaults).lookup = true →
      AuthErr.store = .store) :=
  refresh_store_error_opaque 100 ⟨true, false, false⟩ wSt wTok 3 .store rfl

/-- memAllow on a key with no live entry admits the call and installs a
fresh entry with count 1 and reset = now + window. -/
theorem memAllow_fresh (l : MemLimiter) (key : String) (now : Nat)
    (hkey : key ≠ "") (hpos : 0 < l.limit) (hfresh : l.entries key = none) :
    memAllow l key now =
      ((true, 0), { l with entries := setEntry l.entries key ⟨1, now + l.window⟩ }) := by
  have h1 : (key = "" || decide (l.limit ≤ 0)) = false := by
    simp [hkey]; omega
  have h2 : ¬ (((0 : Nat) : Int) ≥ l.limit) := by omega
  simp [memAllow, h1, hfresh, h2, hpos]

/-- memAllow on a live entry below the limit admits the call and increments
the count, keeping the reset instant. -/
theorem memAllow_count (l : MemLimiter) (key : String) (now c r0 : Nat)
    (hkey : key ≠ "") (hentry : l.entries key = some ⟨c, r0⟩)
    (hnow : now ≤ r0) (hc : (c : Int) < l.limit) :
    memAllow l key now =
      ((true, 0), { l with entries := setEntry l.entries key ⟨c + 1, r0⟩ }) := by
  have h1 : (key = "" || decide (l.limit ≤ 0)) = false := by
    simp [hkey]; omega
  have h3 : ¬ (now > r0) := by omega
  have h2 : ¬ (((c : Nat) : Int) ≥ l.limit) := by omega
  simp [memAllow, h1, hentry, h3, h2]

/-- memAllow on a live entry at or above the limit denies the call with
retryAfter = reset - now and leaves the count unchanged. -/
theorem memAllow_denied (l : MemLimiter) (key : String) (now c r0 : Nat)
    (hkey : key ≠ "") (hpos : 0 < l.limit)
    (hentry : l.entries key = some ⟨c, r0⟩)
    (hnow : now ≤ r0) (hc : (c : Int) ≥ l.limit) :
    memAllow l key now =
      ((false, (r0 : Int) - (now : Int)),
        { l with entries := setEntry l.entries key ⟨c, r0⟩ }) := by
  have h1 : (key = "" || decide (l.limit ≤ 0)) = false := by
    simp [hkey]; omega
  have h3 : ¬ (now > r0) := by omega
  simp [memAllow, h1, hentry, h3, hc]

/-- Any sequence of calls inside the live entry's window that keeps the
count at or below the limit is fully admitted and just counts up. -/
theorem memRun_within_window (l : MemLimiter) (key : String) (c r0 : Nat)
    (ts : List Nat)
    (hkey : key ≠ "")
    (hentry : l.entries key = some ⟨c, r0⟩)
    (hts : ∀ t ∈ ts, t ≤ r0)
    (hc : ((c + ts.length : Nat) : Int) ≤ l.limit) :
    (memRun l key ts).1 = List.replicate ts.length (true, 0) ∧
    (memRun l key ts).2.entries key = some ⟨c + ts.length, r0⟩ ∧
    (memRun l key ts).2.limit = l.limit ∧
    (memRun l key ts).2.window = l.window := by
  induction ts generalizing l c with
  | nil => simp [memRun, hentry]
  | cons t ts ih =>
    have ht : t ≤ r0 := hts t (by simp)
    have hlen : (t :: ts).length = ts.length + 1 := rfl
    have hc2 : ((c + (ts.length + 1) : Nat) : Int) ≤ l.limit := by
      rw [hlen] at hc; exact hc
    have hlt : (c : Int) < l.limit := by push_cast at hc2; omega
    have hstep := memAllow_count l key t c r0 hkey hentry ht hlt
    have hrec := ih { l with entries := setEntry l.entries key ⟨c + 1, r0⟩ } (c + 1)
      (by simp [setEntry]) (fun t2 ht2 => hts t2 (by simp [ht2]))
      (by push_cast at hc2 ⊢; omega)
    simp only [memRun, hstep]
    refine ⟨?_, ?_, hrec.2.2.1, hrec.2.2.2⟩
    · simp [hrec.1, List.replicate_succ]
    · have h := hrec.2.1
      rw [hlen, show c + (ts.length + 1) = c + 1 + ts.length by omega]
      exact h

/-- C5 as stated is false on the in-memory limiter: with limit 1 and
window 10, a fresh key's first call at t = 5 (inside the UTC-aligned window
of epoch 5 / 10 = 0) is admitted, and the call at t = 12 — the first call
of the next UTC-aligned window, epoch 12 / 10 = 1 — is denied with
retryAfter 3, because the entry's reset boundary is first-call time + 10
= 15, not the UTC boundary 20 of the window the call falls in. -/
theorem memory_limiter_utc_alignment_cex :
    (memAllow cexLimiter "k" 5).1 = (true, 0) ∧
    5 / 10 = 0 ∧ 12 / 10 = 1 ∧
    (memAllow (memAllow cexLimiter "k" 5).2 "k" 12).1 = (false, 3) := by
  exact ⟨rfl, rfl, rfl, rfl⟩

/-- C5 (amended): for a key with limit N > 0 and window W, the N calls of a
window that starts at the key's first call t0 — first at t0, the rest at
instants at most t0 + W — are all admitted, and a further call at
tN ∈ [t0, t0 + W) is denied with retryAfter in (0, W]; the per-key reset
boundary is t0 + W, aligned to the first call, not to the UTC epoch. -/
theorem memory_limiter_first_call_window
    (l : MemLimiter) (key : String) (t0 tN : Nat) (ts : List Nat)
    (hkey : key ≠ "") (hfresh : l.entries key = none)
    (hlim : ((ts.length + 1 : Nat) : Int) = l.limit)
    (hts : ∀ t ∈ ts, t ≤ t0 + l.window)
    (ht0 : t0 ≤ tN) (htN : tN < t0 + l.window) :
    (memRun l key (t0 :: ts)).1 = List.replicate (ts.length + 1) (true, 0) ∧
    (memAllow (memRun l key (t0 :: ts)).2 key tN).1.1 = false ∧
    0 < (memAllow (memRun l key (t0 :: ts)).2 key tN).1.2 ∧
    (memAllow (memRun l key (t0 :: ts)).2 key tN).1.2 ≤ (l.window : Int) := by
  have hpos : 0 < l.limit := by push_cast at hlim; omega
  have hstep := memAllow_fresh l key t0 hkey hpos hfresh
  have hrec := memRun_within_window
    { l with entries := setEntry l.entries key ⟨1, t0 + l.window⟩ } key 1
    (t0 + l.window) ts hkey (by simp [setEntry]) hts
    (by push_cast at hlim ⊢; omega)
  have hrun : memRun l key (t0 :: ts) =
      ((true, 0) :: (memRun { l with entries := setEntry l.entries key ⟨1, t0 + l.window⟩ } key ts).1,
        (memRun { l with entries := setEntry l.entries key ⟨1, t0 + l.window⟩ } key ts).2) := by
    simp [memRun, hstep]
  have hden := memAllow_denied
    (memRun { l with entries := setEntry l.entries key ⟨1, t0 + l.window⟩ } key ts).2 key tN
    (1 + ts.length) (t0 + l.window) hkey (by rw [hrec.2.2.1]; exact hpos)
    hrec.2.1 (by omega)
    (by rw [hrec.2.2.1, ← hlim]; push_cast; omega)
  refine ⟨?_, ?_, ?_, ?_⟩
  · rw [hrun]
    simp [hrec.1, List.replicate_succ]
  · rw [hrun]
    simp [hden]
  · rw [hrun]
    simp only [hden]
    omega
  · rw [hrun]
    simp only [hden]
    have hw := hrec.2.2.2
    omega

/-- Revoking by hash only touches revoked_at: the token hashes in the table
are unchanged. -/
theorem revokeSession_hashes (l : List Session) (h now : Nat) (s' : Session)
    (hs : s' ∈ revokeSession l h now) : ∃ s ∈ l, s'.tokenHash = s.tokenHash := by
  obtain ⟨s, hsl, heq⟩ := List.mem_map.mp hs
  refine ⟨s, hsl, ?_⟩
  rw [← heq]
  by_cases hh : (s.tokenHash == h) = true <;> simp [hh]

/-- Looking up a hash after revoking that hash finds the revoked row. -/
theorem findSession_revoke (sessions : List Session) (h now : Nat) :
    findSession (revokeSession sessions h now) h =
      (findSession sessions h).map fun s => { s with revokedAt := some now } := by
  induction sessions with
  | nil => rfl
  | cons s rest ih =>
    by_cases hs : (s.tokenHash == h) = true
    · have h1 : revokeSession (s :: rest) h now =
          ({ s with revokedAt := some now } : Session) :: revokeSession rest h now := by
        unfold revokeSession
        rw [List.map_cons, if_pos hs]
      have h2 : findSession (({ s with revokedAt := some now } : Session) ::
          revokeSession rest h now) h = some { s with revokedAt := some now } :=
        List.find?_cons_of_pos _ (by simpa using hs)
      have h3 : findSession (s :: rest) h = some s :=
        List.find?_cons_of_pos _ hs
      rw [h1, h2, h3]
      rfl
    · have hs2 : (s.tokenHash == h) = false := by simpa using hs
      have h1 : revokeSession (s :: rest) h now = s :: revokeSession rest h now := by
        unfold revokeSession
        rw [List.map_cons, if_neg hs]
      have h2 : findSession (s :: revokeSession rest h now) h =
          findSession (revokeSession rest h now) h :=
        List.find?_cons_of_neg _ (by simp [hs2])
      have h3 : findSession (s :: rest) h = findSession rest h :=
        List.find?_cons_of_neg _ (by simp [hs2])
      rw [h1, h2, h3, ih]

/-- Session lookup distributes over table append. -/
theorem findSession_append (l1 l2 : List Session) (h : Nat) :
    findSession (l1 ++ l2) h = (findSession l1 h).or (findSession l2 h) :=
  List.find?_append

/-- No row is found for a hash strictly above every hash in the table. -/
theorem findSession_none (sessions : List Session) (hsh : Nat)
    (hlt : ∀ s ∈ sessions, s.tokenHash < hsh) :
    findSession sessions hsh = none := by
  rw [findSession, List.find?_eq_none]
  intro s hs
  simp only [beq_iff_eq]
  exact Nat.ne_of_lt (hlt s hs)

/-- A found session is a row of the table carrying the looked-up hash. -/
theorem findSession_some (sessions : List Session) (hsh : Nat) (s : Session)
    (h : findSession sessions hsh = some s) :
    s ∈ sessions ∧ s.tokenHash = hsh := by
  refine ⟨List.mem_of_find?_eq_some h, ?_⟩
  have := List.find?_some h
  simpa using this

/-- Evaluating Refresh on a revoked session row: token reuse. -/
theorem refresh_reuse_eval (ttl : Nat) (st : AuthState) (tok : RefreshTok)
    (now : Nat) (s : Session) (hv : tok.valid = true)
    (hfind : findSession st.sessions tok.tokenID = some s)
    (hrev : s.revokedAt.isSome = true) :
    Refresh ttl noFaults st tok now = .error .tokenReuse := by
  simp [Refresh, hv, noFaults, hfind, hrev]

/-- Evaluating Refresh on a missing session row: invalid token. -/
theorem refresh_invalid_missing (ttl : Nat) (st : AuthState) (tok : RefreshTok)
    (now : Nat) (hv : tok.valid = true)
    (hfind : findSession st.sessions tok.tokenID = none) :
    Refresh ttl noFaults st tok now = .error .invalidToken := by
  simp [Refresh, hv, noFaults, hfind]

/-- Evaluating Refresh on an expired live session row: invalid token. -/
theorem refresh_invalid_expired (ttl : Nat) (st : AuthState) (tok : RefreshTok)
    (now : Nat) (s : Session) (hv : tok.valid = true)
    (hfind : findSession st.sessions tok.tokenID = some s)
    (hrev : s.revokedAt = none) (hexp : s.expiresAt < now) :
    Refresh ttl noFaults st tok now = .error .invalidToken := by
  simp [Refresh, hv, noFaults, hfind, hrev, hexp]

/-- Evaluating Refresh on a live unexpired session row: rotation succeeds,
revoking the presented row and appending the rotated session. -/
theorem refresh_success_eval (ttl : Nat) (st : AuthState) (tok : RefreshTok)
    (now : Nat) (s : Session) (hv : tok.valid = true)
    (hfind : findSession st.sessions tok.tokenID = some s)
    (hrev : s.revokedAt = none) (hexp : ¬ (s.expiresAt < now)) :
    Refresh ttl noFaults st tok now =
      .ok (⟨revokeSession st.sessions tok.tokenID now ++
          [⟨tok.userID, st.nextToken, now + ttl, none⟩], st.nextToken + 1⟩,
        ⟨st.nextToken, true, tok.userID⟩) := by
  simp [Refresh, hv, noFaults, hfind, hrev, hexp, mintRefresh]

/-- Inversion of a successful Refresh without store faults: the token was
parseable, the presented row was live and unexpired, and the result state
and token have the rotation shape. -/
theorem refresh_ok_shape (ttl : Nat) (st : AuthState) (tok : RefreshTok)
    (now : Nat) (st1 : AuthState) (tok1 : RefreshTok)
    (h : Refresh ttl noFaults st tok now = .ok (st1, tok1)) :
    tok.valid = true ∧
    ∃ s, findSession st.sessions tok.tokenID = some s ∧ s.revokedAt = none ∧
      ¬ (s.expiresAt < now) ∧
      tok1 = ⟨st.nextToken, true, tok.userID⟩ ∧
      st1 = ⟨revokeSession st.sessions tok.tokenID now ++
        [⟨tok.userID, st.nextToken, now + ttl, none⟩], st.nextToken + 1⟩ := by
  unfold Refresh at h
  split at h
  · exact absurd h (by simp)
  next hv =>
  have hv2 : tok.valid = true := by revert hv; simp
  split at h
  · exact absurd h (by simp)
  split at h
  · exact absurd h (by simp)
  next s hfind =>
  split at h
  · exact absurd h (by simp)
  next hrev =>
  have hrev2 : s.revokedAt = none := by
    revert hrev; cases s.revokedAt <;> simp
  split at h
  · exact absurd h (by simp)
  next hexp =>
  simp only [mintRefresh] at h
  split at h
  · exact absurd h (by simp)
  split at h
  · exact absurd h (by simp)
  rw [Except.ok.injEq, Prod.mk.injEq] at h
  exact ⟨hv2, s, hfind, hrev2, hexp, h.2.symm, h.1.symm⟩

/-- C1: after a successful rotation of T into T1, replaying T fails with
the token-reuse error and changes nothing (the revoked row stays revoked);
T1 succeeds while unexpired, and then exactly once — replaying it after its
own rotation is again token reuse; a parseable token with no session row,
or one whose row expired before now, fails with invalid token. -/
theorem refresh_rotation_reuse_detection
    (ttl : Nat) (st : AuthState) (tok : RefreshTok) (now now2 now3 : Nat)
    (st1 : AuthState) (tok1 : RefreshTok)
    (hfresh : HashesFresh st)
    (hrot : Refresh ttl noFaults st tok now = .ok (st1, tok1)) :
    (Refresh ttl noFaults st1 tok now2 = .error .tokenReuse ∧
      refreshFinalState st1 (Refresh ttl noFaults st1 tok now2) = st1) ∧
    (now2 ≤ now + ttl →
      ∃ st2 tok2, Refresh ttl noFaults st1 tok1 now2 = .ok (st2, tok2) ∧
        Refresh ttl noFaults st2 tok1 now3 = .error .tokenReuse) ∧
    (∀ (tok3 : RefreshTok) (t : Nat), tok3.valid = true →
      findSession st.sessions tok3.tokenID = none →
      Refresh ttl noFaults st tok3 t = .error .invalidToken) ∧
    (∀ (tok3 : RefreshTok) (t : Nat) (s3 : Session), tok3.valid = true →
      findSession st.sessions tok3.tokenID = some s3 → s3.revokedAt = none →
      s3.expiresAt < t →
      Refresh ttl noFaults st tok3 t = .error .invalidToken) := by
  obtain ⟨hv, s, hfind, hrev, hexp, htok1, hst1⟩ :=
    refresh_ok_shape ttl st tok now st1 tok1 hrot
  subst hst1
  subst htok1
  have hbound : ∀ s2 ∈ revokeSession st.sessions tok.tokenID now,
      s2.tokenHash < st.nextToken := by
    intro s2 hs2
    obtain ⟨s3, hs3, heq⟩ := revokeSession_hashes st.sessions tok.tokenID now s2 hs2
    rw [heq]
    exact hfresh s3 hs3
  have hfind1 : findSession (revokeSession st.sessions tok.tokenID now ++
      [⟨tok.userID, st.nextToken, now + ttl, none⟩]) tok.tokenID =
      some { s with revokedAt := some now } := by
    rw [findSession_append, findSession_revoke, hfind]
    rfl
  have hreuse1 : Refresh ttl noFaults ⟨revokeSession st.sessions tok.tokenID now ++
      [⟨tok.userID, st.nextToken, now + ttl, none⟩], st.nextToken + 1⟩ tok now2 =
      .error .tokenReuse :=
    refresh_reuse_eval ttl _ tok now2 { s with revokedAt := some now } hv hfind1 rfl
  refine ⟨⟨hreuse1, ?_⟩, ?_, ?_, ?_⟩
  · simp [refreshFinalState, hreuse1]
  · intro hnow2
    have hfind2 : findSession (revokeSession st.sessions tok.tokenID now ++
        [⟨tok.userID, st.nextToken, now + ttl, none⟩]) st.nextToken =
        some ⟨tok.userID, st.nextToken, now + ttl, none⟩ := by
      rw [findSession_append, findSession_none _ _ hbound]
      have hone : findSession [(⟨tok.userID, st.nextToken, now + ttl, none⟩ : Session)]
          st.nextToken = some ⟨tok.userID, st.nextToken, now + ttl, none⟩ :=
        List.find?_cons_of_pos _ (by simp)
      rw [hone]
      rfl
    have hsucc := refresh_success_eval ttl
      ⟨revokeSession st.sessions tok.tokenID now ++
        [⟨tok.userID, st.nextToken, now + ttl, none⟩], st.nextToken + 1⟩
      ⟨st.nextToken, true, tok.userID⟩ now2
      ⟨tok.userID, st.nextToken, now + ttl, none⟩ rfl hfind2 rfl
      (by show ¬ (now + ttl < now2); omega)
    refine ⟨_, _, hsucc, ?_⟩
    have hfind3 : findSession (revokeSession (revokeSession st.sessions tok.tokenID now ++
        [⟨tok.userID, st.nextToken, now + ttl, none⟩]) st.nextToken now2 ++
        [⟨tok.userID, st.nextToken + 1, now2 + ttl, none⟩]) st.nextToken =
        some ⟨tok.userID, st.nextToken, now + ttl, some now2⟩ := by
      rw [findSession_append, findSession_revoke, hfind2]
      rfl
    exact refresh_reuse_eval ttl _ _ now3 _ rfl hfind3 rfl
  · intro tok3 t hv3 hfind3
    exact refresh_invalid_missing ttl st tok3 t hv3 hfind3
  · intro tok3 t s3 hv3 hfind3 hrev3 hexp3
    exact refresh_invalid_expired ttl st tok3 t s3 hv3 hfind3 hrev3 hexp3

/-- Witness for C1: replaying the concrete rotated-away token wTok against
the post-rotation table is token reuse and changes nothing. -/
theorem refresh_rotation_reuse_detection_w :
    Refresh 100 noFaults wSt1 wTok 5 = .error .tokenReuse ∧
    refreshFinalState wSt1 (Refresh 100 noFaults wSt1 wTok 5) = wSt1 :=
  (refresh_rotation_reuse_detection 100 wSt wTok 3 5 7 wSt1 wTok1
    (by show ∀ s ∈ wSt.sessions, s.tokenHash < wSt.nextToken; decide)
    (by rfl)).1

/-- Witness for C5 (amended): limit 1, window 10, first call at 5, second
call at 7 is denied with retryAfter 15 - 7 = 8 ∈ (0, 10]. -/
theorem memory_limiter_first_call_window_w :
    (memRun cexLimiter "k" [5]).1 = List.replicate 1 (true, 0) ∧
    (memAllow (memRun cexLimiter "k" [5]).2 "k" 7).1.1 = false ∧
    0 < (memAllow (memRun cexLimiter "k" [5]).2 "k" 7).1.2 ∧
    (memAllow (memRun cexLimiter "k" [5]).2 "k" 7).1.2 ≤ ((10 : Nat) : Int) :=
  memory_limiter_first_call_window cexLimiter "k" 5 7 []
    (by decide) rfl (by decide) (by simp) (by decide) (by decide)

/-- The diff produces a column write iff it produces history rows: the
updates map is empty exactly when the entry batch is. -/
theorem buildTaskDiffEntries_empty (task : TaskRow) (userID : Int) (p : ParsedPatch) :
    ((buildTaskDiffEntries task userID p).1.isEmpty = true ↔
      (buildTaskDiffEntries task userID p).2 = []) := by
  simp only [buildTaskDiffEntries, TaskUpdates.isEmpty]
  cases diffTitle task userID p.title <;>
    cases diffDescription task userID p.description <;>
    cases diffStatus task userID p.status <;>
    cases diffPriority task userID p.priority <;>
    cases diffAssignee task userID p.assigneeID <;>
    cases diffDueDate task userID p.dueDate <;> simp

/-- C2: an UpdateTask call that returns an error leaves the observable
store exactly as it was — no task column changed, no history row inserted —
and a successful call either changes nothing (empty diff) or applies the
column updates and appends the nonempty history batch together, so history
rows are observable iff the task row was updated. -/
theorem updateTask_transactional_atomicity
    (env : TaskEnv) (faults : TaskFaults) (st : TaskStore)
    (userID taskID : Int) (raw : List (String × JVal)) :
    (∀ e, UpdateTask env faults st userID taskID raw = .error e →
      updateFinalState st (UpdateTask env faults st userID taskID raw) = st) ∧
    (∀ st1 team, UpdateTask env faults st userID taskID raw = .ok (st1, team) →
      st1 = st ∨
      ∃ task p, findTask st.tasks taskID = some task ∧
        parseTaskPatch env.isMember raw = .ok p ∧
        (buildTaskDiffEntries task userID p).2 ≠ [] ∧
        st1.tasks = st.tasks.map (fun t => if t.id == taskID then
          applyUpdates t (buildTaskDiffEntries task userID p).1 else t) ∧
        st1.history = st.history ++ (buildTaskDiffEntries task userID p).2) := by
  constructor
  · intro e he
    simp [updateFinalState, he]
  · intro st1 team h
    unfold UpdateTask at h
    split at h
    · exact absurd h (by simp)
    split at h
    · exact absurd h (by simp)
    split at h
    · exact absurd h (by simp)
    next task hfind =>
    split at h
    · exact absurd h (by simp)
    · exact absurd h (by simp)
    split at h
    · exact absurd h (by simp)
    next p hparse =>
    split at h
    · exact absurd h (by simp)
    split at h
    · next hempty =>
      left
      rw [Except.ok.injEq, Prod.mk.injEq] at h
      exact h.1.symm
    · next hempty =>
      split at h
      · exact absurd h (by simp)
      split at h
      · exact absurd h (by simp)
      split at h
      · exact absurd h (by simp)
      right
      rw [Except.ok.injEq, Prod.mk.injEq] at h
      refine ⟨task, p, hfind, hparse, ?_, ?_, ?_⟩
      · intro hnil
        exact hempty ((buildTaskDiffEntries_empty task userID p).mpr hnil)
      · rw [← h.1]
      · rw [← h.1]

/-- Witness for C2: a concrete successful status update applies the column
write and the history row together. -/
theorem updateTask_transactional_atomicity_w :
    (⟨[⟨1, 2, "t", none, "done", "low", none, none⟩],
        [⟨1, some 9, "status", .jstr "todo", .jstr "done"⟩]⟩ : TaskStore) = wTaskStore ∨
    ∃ task p, findTask wTaskStore.tasks 1 = some task ∧
      parseTaskPatch wTaskEnv.isMember [("status", .jstr "done")] = .ok p ∧
      (buildTaskDiffEntries task 9 p).2 ≠ [] ∧
      (⟨[⟨1, 2, "t", none, "done", "low", none, none⟩],
          [⟨1, some 9, "status", .jstr "todo", .jstr "done"⟩]⟩ : TaskStore).tasks =
        wTaskStore.tasks.map (fun t => if t.id == 1 then
          applyUpdates t (buildTaskDiffEntries task 9 p).1 else t) ∧
      (⟨[⟨1, 2, "t", none, "done", "low", none, none⟩],
          [⟨1, some 9, "status", .jstr "todo", .jstr "done"⟩]⟩ : TaskStore).history =
        wTaskStore.history ++ (buildTaskDiffEntries task 9 p).2 :=
  (updateTask_transactional_atomicity wTaskEnv noTaskFaults wTaskStore 9 1
    [("status", .jstr "done")]).2
    ⟨[⟨1, 2, "t", none, "done", "low", none, none⟩],
      [⟨1, some 9, "status", .jstr "todo", .jstr "done"⟩]⟩ 2 rfl

/-- Every history entry the title arm emits names the title field, the
calling user and the task. -/
theorem diffTitle_shape (task : TaskRow) (userID : Int) (x : Option String)
    (u : String) (e : HistEntry) (h : diffTitle task userID x = some (u, e)) :
    e.fieldName = "title" ∧ e.changedBy = some userID ∧ e.taskID = task.id := by
  unfold diffTitle at h
  repeat' split at h
  all_goals first
    | (rw [Option.some.injEq, Prod.mk.injEq] at h
       rw [← h.2]
       exact ⟨rfl, rfl, rfl⟩)
    | exact absurd h (by simp)

/-- As diffTitle_shape, for the description arm. -/
theorem diffDescription_shape (task : TaskRow) (userID : Int)
    (x : Option (Option String)) (u : Option String) (e : HistEntry)
    (h : diffDescription task userID x = some (u, e)) :
    e.fieldName = "description" ∧ e.changedBy = some userID ∧ e.taskID = task.id := by
  unfold diffDescription at h
  repeat' split at h
  all_goals first
    | (rw [Option.some.injEq, Prod.mk.injEq] at h
       rw [← h.2]
       exact ⟨rfl, rfl, rfl⟩)
    | exact absurd h (by simp)

/-- As diffTitle_shape, for the status arm. -/
theorem diffStatus_shape (task : TaskRow) (userID : Int) (x : Option String)
    (u : String) (e : HistEntry) (h : diffStatus task userID x = some (u, e)) :
    e.fieldName = "status" ∧ e.changedBy = some userID ∧ e.taskID = task.id := by
  unfold diffStatus at h
  repeat' split at h
  all_goals first
    | (rw [Option.some.injEq, Prod.mk.injEq] at h
       rw [← h.2]
       exact ⟨rfl, rfl, rfl⟩)
    | exact absurd h (by simp)

/-- As diffTitle_shape, for the priority arm. -/
theorem diffPriority_shape (task : TaskRow) (userID : Int) (x : Option String)
    (u : String) (e : HistEntry) (h : diffPriority task userID x = some (u, e)) :
    e.fieldName = "priority" ∧ e.changedBy = some userID ∧ e.taskID = task.id := by
  unfold diffPriority at h
  repeat' split at h
  all_goals first
    | (rw [Option.some.injEq, Prod.mk.injEq] at h
       rw [← h.2]
       exact ⟨rfl, rfl, rfl⟩)
    | exact absurd h (by simp)

/-- As diffTitle_shape, for the assignee arm. -/
theorem diffAssignee_shape (task : TaskRow) (userID : Int)
    (x : Option (Option Int)) (u : Option Int) (e : HistEntry)
    (h : diffAssignee task userID x = some (u, e)) :
    e.fieldName = "assignee_id" ∧ e.changedBy = some userID ∧ e.taskID = task.id := by
  unfold diffAssignee at h
  repeat' split at h
  all_goals first
    | (rw [Option.some.injEq, Prod.mk.injEq] at h
       rw [← h.2]
       exact ⟨rfl, rfl, rfl⟩)
    | exact absurd h (by simp)

/-- As diffTitle_shape, for the due-date arm. -/
theorem diffDueDate_shape (task : TaskRow) (userID : Int)
    (x : Option (Option String)) (u : Option String) (e : HistEntry)
    (h : diffDueDate task userID x = some (u, e)) :
    e.fieldName = "due_date" ∧ e.changedBy = some userID ∧ e.taskID = task.id := by
  unfold diffDueDate at h
  repeat' split at h
  all_goals first
    | (rw [Option.some.injEq, Prod.mk.injEq] at h
       rw [← h.2]
       exact ⟨rfl, rfl, rfl⟩)
    | exact absurd h (by simp)

/-- Filtering one arm's entry list by a different field name drops it. -/
theorem filter_toList_of_ne {α : Type} (opt : Option (α × HistEntry)) (f s : String)
    (hf : ∀ u e, opt = some (u, e) → e.fieldName = f) (hne : f ≠ s) :
    (((opt.map Prod.snd).toList).filter fun e => e.fieldName = s) = [] := by
  cases opt with
  | none => rfl
  | some ue =>
    obtain ⟨u, e⟩ := ue
    have hfe := hf u e rfl
    simp [List.filter, hfe, hne]

/-- Filtering one arm's entry list by its own field name keeps it. -/
theorem filter_toList_of_eq {α : Type} (opt : Option (α × HistEntry)) (f : String)
    (hf : ∀ u e, opt = some (u, e) → e.fieldName = f) :
    (((opt.map Prod.snd).toList).filter fun e => e.fieldName = f) =
      (opt.map Prod.snd).toList := by
  cases opt with
  | none => rfl
  | some ue =>
    obtain ⟨u, e⟩ := ue
    have hfe := hf u e rfl
    simp [List.filter, hfe]

/-- Membership in an arm's entry list comes from that arm firing. -/
theorem mem_opt_toList {α : Type} (opt : Option (α × HistEntry)) (e : HistEntry)
    (he : e ∈ (opt.map Prod.snd).toList) : ∃ u, opt = some (u, e) := by
  cases opt with
  | none => simp at he
  | some ue =>
    obtain ⟨u, e2⟩ := ue
    simp at he
    exact ⟨u, by rw [he]⟩

/-- Every history row the diff emits carries the calling user and the
task id. -/
theorem entries_changedBy (task : TaskRow) (userID : Int) (p : ParsedPatch) :
    ∀ e ∈ (buildTaskDiffEntries task userID p).2,
      e.changedBy = some userID ∧ e.taskID = task.id := by
  intro e he
  simp only [buildTaskDiffEntries, List.mem_append] at he
  rcases he with ((((h | h) | h) | h) | h) | h
  · obtain ⟨u, h2⟩ := mem_opt_toList _ _ h
    exact (diffTitle_shape task userID p.title u e h2).2
  · obtain ⟨u, h2⟩ := mem_opt_toList _ _ h
    exact (diffDescription_shape task userID p.description u e h2).2
  · obtain ⟨u, h2⟩ := mem_opt_toList _ _ h
    exact (diffStatus_shape task userID p.status u e h2).2
  · obtain ⟨u, h2⟩ := mem_opt_toList _ _ h
    exact (diffPriority_shape task userID p.priority u e h2).2
  · obtain ⟨u, h2⟩ := mem_opt_toList _ _ h
    exact (diffAssignee_shape task userID p.assigneeID u e h2).2
  · obtain ⟨u, h2⟩ := mem_opt_toList _ _ h
    exact (diffDueDate_shape task userID p.dueDate u e h2).2

/-- Every history row the diff emits names one of the six patchable
fields. -/
theorem entries_fieldNames (task : TaskRow) (userID : Int) (p : ParsedPatch) :
    ∀ e ∈ (buildTaskDiffEntries task userID p).2,
      e.fieldName = "title" ∨ e.fieldName = "description" ∨
      e.fieldName = "status" ∨ e.fieldName = "priority" ∨
      e.fieldName = "assignee_id" ∨ e.fieldName = "due_date" := by
  intro e he
  simp only [buildTaskDiffEntries, List.mem_append] at he
  rcases he with ((((h | h) | h) | h) | h) | h
  · obtain ⟨u, h2⟩ := mem_opt_toList _ _ h
    exact Or.inl (diffTitle_shape task userID p.title u e h2).1
  · obtain ⟨u, h2⟩ := mem_opt_toList _ _ h
    exact Or.inr (Or.inl (diffDescription_shape task userID p.description u e h2).1)
  · obtain ⟨u, h2⟩ := mem_opt_toList _ _ h
    exact Or.inr (Or.inr (Or.inl (diffStatus_shape task userID p.status u e h2).1))
  · obtain ⟨u, h2⟩ := mem_opt_toList _ _ h
    exact Or.inr (Or.inr (Or.inr (Or.inl
      (diffPriority_shape task userID p.priority u e h2).1)))
  · obtain ⟨u, h2⟩ := mem_opt_toList _ _ h
    exact Or.inr (Or.inr (Or.inr (Or.inr (Or.inl
      (diffAssignee_shape task userID p.assigneeID u e h2).1))))
  · obtain ⟨u, h2⟩ := mem_opt_toList _ _ h
    exact Or.inr (Or.inr (Or.inr (Or.inr (Or.inr
      (diffDueDate_shape task userID p.dueDate u e h2).1))))

/-- The history rows for field title are exactly one row when the patch
carries a differing title, none otherwise. -/
theorem entries_filter_title (task : TaskRow) (userID : Int) (p : ParsedPatch) :
    ((buildTaskDiffEntries task userID p).2.filter fun e => e.fieldName = "title") =
      (match p.title with
       | none => []
       | some v => if task.title = v then []
         else [⟨task.id, some userID, "title", .jstr task.title, .jstr v⟩]) := by
  have hT := filter_toList_of_eq (diffTitle task userID p.title) "title"
    (fun u e h => (diffTitle_shape task userID p.title u e h).1)
  have hD := filter_toList_of_ne (diffDescription task userID p.description)
    "description" "title"
    (fun u e h => (diffDescription_shape task userID p.description u e h).1) (by decide)
  have hS := filter_toList_of_ne (diffStatus task userID p.status) "status" "title"
    (fun u e h => (diffStatus_shape task userID p.status u e h).1) (by decide)
  have hP := filter_toList_of_ne (diffPriority task userID p.priority) "priority" "title"
    (fun u e h => (diffPriority_shape task userID p.priority u e h).1) (by decide)
  have hA := filter_toList_of_ne (diffAssignee task userID p.assigneeID)
    "assignee_id" "title"
    (fun u e h => (diffAssignee_shape task userID p.assigneeID u e h).1) (by decide)
  have hU := filter_toList_of_ne (diffDueDate task userID p.dueDate) "due_date" "title"
    (fun u e h => (diffDueDate_shape task userID p.dueDate u e h).1) (by decide)
  simp only [buildTaskDiffEntries, List.filter_append, hT, hD, hS, hP, hA, hU,
    List.append_nil]
  cases p.title with
  | none => rfl
  | some v =>
    unfold diffTitle
    by_cases hv : task.title = v
    · simp [hv]
    · simp [hv, taskHistoryEntry]

/-- The history rows for field description are exactly one row when the patch
carries a differing value (null included), none otherwise. -/
theorem entries_filter_description (task : TaskRow) (userID : Int) (p : ParsedPatch) :
    ((buildTaskDiffEntries task userID p).2.filter fun e => e.fieldName = "description") =
      (match p.description with
       | none => []
       | some d => if task.description = d then []
         else [⟨task.id, some userID, "description", jsonOfOptString task.description, jsonOfOptString d⟩]) := by
  have hT := filter_toList_of_ne (diffTitle task userID p.title) "title" "description"
    (fun u e h => (diffTitle_shape task userID p.title u e h).1) (by decide)
  have hD := filter_toList_of_eq (diffDescription task userID p.description) "description"
    (fun u e h => (diffDescription_shape task userID p.description u e h).1)
  have hS := filter_toList_of_ne (diffStatus task userID p.status) "status" "description"
    (fun u e h => (diffStatus_shape task userID p.status u e h).1) (by decide)
  have hP := filter_toList_of_ne (diffPriority task userID p.priority) "priority" "description"
    (fun u e h => (diffPriority_shape task userID p.priority u e h).1) (by decide)
  have hA := filter_toList_of_ne (diffAssignee task userID p.assigneeID) "assignee_id" "description"
    (fun u e h => (diffAssignee_shape task userID p.assigneeID u e h).1) (by decide)
  have hU := filter_toList_of_ne (diffDueDate task userID p.dueDate) "due_date" "description"
    (fun u e h => (diffDueDate_shape task userID p.dueDate u e h).1) (by decide)
  simp only [buildTaskDiffEntries, List.filter_append, hT, hD, hS, hP, hA, hU,
    List.append_nil]
  cases p.description with
  | none => rfl
  | some d =>
    cases d with
    | none =>
      unfold diffDescription
      by_cases hn : task.description.isNone
      · have h0 : task.description = none := Option.isNone_iff_eq_none.mp hn
        simp [hn, h0]
      · have h0 : ¬ task.description = none := by
          simpa [Option.isNone_iff_eq_none] using hn
        simp [hn, h0, taskHistoryEntry, jsonOfOptString]
    | some v =>
      unfold diffDescription
      by_cases hv : task.description = some v
      · simp [hv]
      · simp [hv, taskHistoryEntry, jsonOfOptString]

/-- The history rows for field status are exactly one row when the patch
carries a differing value, none otherwise. -/
theorem entries_filter_status (task : TaskRow) (userID : Int) (p : ParsedPatch) :
    ((buildTaskDiffEntries task userID p).2.filter fun e => e.fieldName = "status") =
      (match p.status with
       | none => []
       | some v => if task.status = v then []
         else [⟨task.id, some userID, "status", .jstr task.status, .jstr v⟩]) := by
  have hT := filter_toList_of_ne (diffTitle task userID p.title) "title" "status"
    (fun u e h => (diffTitle_shape task userID p.title u e h).1) (by decide)
  have hD := filter_toList_of_ne (diffDescription task userID p.description) "description" "status"
    (fun u e h => (diffDescription_shape task userID p.description u e h).1) (by decide)
  have hS := filter_toList_of_eq (diffStatus task userID p.status) "status"
    (fun u e h => (diffStatus_shape task userID p.status u e h).1)
  have hP := filter_toList_of_ne (diffPriority task userID p.priority) "priority" "status"
    (fun u e h => (diffPriority_shape task userID p.priority u e h).1) (by decide)
  have hA := filter_toList_of_ne (diffAssignee task userID p.assigneeID) "assignee_id" "status"
    (fun u e h => (diffAssignee_shape task userID p.assigneeID u e h).1) (by decide)
  have hU := filter_toList_of_ne (diffDueDate task userID p.dueDate) "due_date" "status"
    (fun u e h => (diffDueDate_shape task userID p.dueDate u e h).1) (by decide)
  simp only [buildTaskDiffEntries, List.filter_append, hT, hD, hS, hP, hA, hU,
    List.append_nil]
  cases p.status with
  | none => rfl
  | some v =>
    unfold diffStatus
    by_cases hv : task.status = v
    · simp [hv]
    · simp [hv, taskHistoryEntry]

/-- The history rows for field priority are exactly one row when the patch
carries a differing value, none otherwise. -/
theorem entries_filter_priority (task : TaskRow) (userID : Int) (p : ParsedPatch) :
    ((buildTaskDiffEntries task userID p).2.filter fun e => e.fieldName = "priority") =
      (match p.priority with
       | none => []
       | some v => if task.priority = v then []
         else [⟨task.id, some userID, "priority", .jstr task.priority, .jstr v⟩]) := by
  have hT := filter_toList_of_ne (diffTitle task userID p.title) "title" "priority"
    (fun u e h => (diffTitle_shape task userID p.title u e h).1) (by decide)
  have hD := filter_toList_of_ne (diffDescription task userID p.description) "description" "priority"
    (fun u e h => (diffDescription_shape task userID p.description u e h).1) (by decide)
  have hS := filter_toList_of_ne (diffStatus task userID p.status) "status" "priority"
    (fun u e h => (diffStatus_shape task userID p.status u e h).1) (by decide)
  have hP := filter_toList_of_eq (diffPriority task userID p.priority) "priority"
    (fun u e h => (diffPriority_shape task userID p.priority u e h).1)
  have hA := filter_toList_of_ne (diffAssignee task userID p.assigneeID) "assignee_id" "priority"
    (fun u e h => (diffAssignee_shape task userID p.assigneeID u e h).1) (by decide)
  have hU := filter_toList_of_ne (diffDueDate task userID p.dueDate) "due_date" "priority"
    (fun u e h => (diffDueDate_shape task userID p.dueDate u e h).1) (by decide)
  simp only [buildTaskDiffEntries, List.filter_append, hT, hD, hS, hP, hA, hU,
    List.append_nil]
  cases p.priority with
  | none => rfl
  | some v =>
    unfold diffPriority
    by_cases hv : task.priority = v
    · simp [hv]
    · simp [hv, taskHistoryEntry]

/-- The history rows for field assignee_id are exactly one row when the patch
carries a differing value (null included), none otherwise. -/
theorem entries_filter_assignee (task : TaskRow) (userID : Int) (p : ParsedPatch) :
    ((buildTaskDiffEntries task userID p).2.filter fun e => e.fieldName = "assignee_id") =
      (match p.assigneeID with
       | none => []
       | some d => if task.assigneeID = d then []
         else [⟨task.id, some userID, "assignee_id", jsonOfOptInt task.assigneeID, jsonOfOptInt d⟩]) := by
  have hT := filter_toList_of_ne (diffTitle task userID p.title) "title" "assignee_id"
    (fun u e h => (diffTitle_shape task userID p.title u e h).1) (by decide)
  have hD := filter_toList_of_ne (diffDescription task userID p.description) "description" "assignee_id"
    (fun u e h => (diffDescription_shape task userID p.description u e h).1) (by decide)
  have hS := filter_toList_of_ne (diffStatus task userID p.status) "status" "assignee_id"
    (fun u e h => (diffStatus_shape task userID p.status u e h).1) (by decide)
  have hP := filter_toList_of_ne (diffPriority task userID p.priority) "priority" "assignee_id"
    (fun u e h => (diffPriority_shape task userID p.priority u e h).1) (by decide)
  have hA := filter_toList_of_eq (diffAssignee task userID p.assigneeID) "assignee_id"
    (fun u e h => (diffAssignee_shape task userID p.assigneeID u e h).1)
  have hU := filter_toList_of_ne (diffDueDate task userID p.dueDate) "due_date" "assignee_id"
    (fun u e h => (diffDueDate_shape task userID p.dueDate u e h).1) (by decide)
  simp only [buildTaskDiffEntries, List.filter_append, hT, hD, hS, hP, hA, hU,
    List.append_nil]
  cases p.assigneeID with
  | none => rfl
  | some d =>
    cases d with
    | none =>
      unfold diffAssignee
      by_cases hn : task.assigneeID.isNone
      · have h0 : task.assigneeID = none := Option.isNone_iff_eq_none.mp hn
        simp [hn, h0]
      · have h0 : ¬ task.assigneeID = none := by
          simpa [Option.isNone_iff_eq_none] using hn
        simp [hn, h0, taskHistoryEntry, jsonOfOptInt]
    | some v =>
      unfold diffAssignee
      by_cases hv : task.assigneeID = some v
      · simp [hv]
      · simp [hv, taskHistoryEntry, jsonOfOptInt]

/-- The history rows for field due_date are exactly one row when the patch
carries a differing value (null included), none otherwise. -/
theorem entries_filter_duedate (task : TaskRow) (userID : Int) (p : ParsedPatch) :
    ((buildTaskDiffEntries task userID p).2.filter fun e => e.fieldName = "due_date") =
      (match p.dueDate with
       | none => []
       | some d => if task.dueDate = d then []
         else [⟨task.id, some userID, "due_date", jsonOfOptString task.dueDate, jsonOfOptString d⟩]) := by
  have hT := filter_toList_of_ne (diffTitle task userID p.title) "title" "due_date"
    (fun u e h => (diffTitle_shape task userID p.title u e h).1) (by decide)
  have hD := filter_toList_of_ne (diffDescription task userID p.description) "description" "due_date"
    (fun u e h => (diffDescription_shape task userID p.description u e h).1) (by decide)
  have hS := filter_toList_of_ne (diffStatus task userID p.status) "status" "due_date"
    (fun u e h => (diffStatus_shape task userID p.status u e h).1) (by decide)
  have hP := filter_toList_of_ne (diffPriority task userID p.priority) "priority" "due_date"
    (fun u e h => (diffPriority_shape task userID p.priority u e h).1) (by decide)
  have hA := filter_toList_of_ne (diffAssignee task userID p.assigneeID) "assignee_id" "due_date"
    (fun u e h => (diffAssignee_shape task userID p.assigneeID u e h).1) (by decide)
  have hU := filter_toList_of_eq (diffDueDate task userID p.dueDate) "due_date"
    (fun u e h => (diffDueDate_shape task userID p.dueDate u e h).1)
  simp only [buildTaskDiffEntries, List.filter_append, hT, hD, hS, hP, hA, hU,
    List.append_nil]
  cases p.dueDate with
  | none => rfl
  | some d =>
    cases d with
    | none =>
      unfold diffDueDate
      by_cases hn : task.dueDate.isNone
      · have h0 : task.dueDate = none := Option.isNone_iff_eq_none.mp hn
        simp [hn, h0]
      · have h0 : ¬ task.dueDate = none := by
          simpa [Option.isNone_iff_eq_none] using hn
        simp [hn, h0, taskHistoryEntry, jsonOfOptString]
    | some v =>
      unfold diffDueDate
      by_cases hv : task.dueDate = some v
      · simp [hv]
      · simp [hv, taskHistoryEntry, jsonOfOptString]

/-- The written title column value agrees with the patch: the stored value
is the patched one when present (equal values write nothing, which leaves
the same value). -/
theorem diffTitle_fst (task : TaskRow) (userID : Int) (x : Option String) :
    (((diffTitle task userID x).map Prod.fst).getD task.title) = x.getD task.title := by
  cases x with
  | none => rfl
  | some v =>
    unfold diffTitle
    by_cases hv : task.title = v <;> simp [hv]

/-- As diffTitle_fst, for status. -/
theorem diffStatus_fst (task : TaskRow) (userID : Int) (x : Option String) :
    (((diffStatus task userID x).map Prod.fst).getD task.status) = x.getD task.status := by
  cases x with
  | none => rfl
  | some v =>
    unfold diffStatus
    by_cases hv : task.status = v <;> simp [hv]

/-- As diffTitle_fst, for priority. -/
theorem diffPriority_fst (task : TaskRow) (userID : Int) (x : Option String) :
    (((diffPriority task userID x).map Prod.fst).getD task.priority) =
      x.getD task.priority := by
  cases x with
  | none => rfl
  | some v =>
    unfold diffPriority
    by_cases hv : task.priority = v <;> simp [hv]

/-- As diffTitle_fst, for the nullable description. -/
theorem diffDescription_fst (task : TaskRow) (userID : Int)
    (x : Option (Option String)) :
    (((diffDescription task userID x).map Prod.fst).getD task.description) =
      x.getD task.description := by
  cases x with
  | none => rfl
  | some d =>
    cases d with
    | none =>
      unfold diffDescription
      by_cases hn : task.description.isNone
      · have h0 : task.description = none := Option.isNone_iff_eq_none.mp hn
        simp [hn, h0]
      · simp [hn]
    | some v =>
      unfold diffDescription
      by_cases hv : task.description = some v
      · simp [hv]
      · simp [hv]

/-- As diffTitle_fst, for the nullable assignee. -/
theorem diffAssignee_fst (task : TaskRow) (userID : Int)
    (x : Option (Option Int)) :
    (((diffAssignee task userID x).map Prod.fst).getD task.assigneeID) =
      x.getD task.assigneeID := by
  cases x with
  | none => rfl
  | some d =>
    cases d with
    | none =>
      unfold diffAssignee
      by_cases hn : task.assigneeID.isNone
      · have h0 : task.assigneeID = none := Option.isNone_iff_eq_none.mp hn
        simp [hn, h0]
      · simp [hn]
    | some v =>
      unfold diffAssignee
      by_cases hv : task.assigneeID = some v
      · simp [hv]
      · simp [hv]

/-- As diffTitle_fst, for the nullable due date. -/
theorem diffDueDate_fst (task : TaskRow) (userID : Int)
    (x : Option (Option String)) :
    (((diffDueDate task userID x).map Prod.fst).getD task.dueDate) =
      x.getD task.dueDate := by
  cases x with
  | none => rfl
  | some d =>
    cases d with
    | none =>
      unfold diffDueDate
      by_cases hn : task.dueDate.isNone
      · have h0 : task.dueDate = none := Option.isNone_iff_eq_none.mp hn
        simp [hn, h0]
      · simp [hn]
    | some v =>
      unfold diffDueDate
      by_cases hv : task.dueDate = some v
      · simp [hv]
      · simp [hv]

/-- Applying the computed updates to the fetched row yields exactly the
patched row: patched fields take their parsed values, the rest keep the
current values. -/
theorem applyUpdates_diff (task : TaskRow) (userID : Int) (p : ParsedPatch) :
    applyUpdates task (buildTaskDiffEntries task userID p).1 =
      ⟨task.id, task.teamID, p.title.getD task.title, p.description.getD task.description,
        p.status.getD task.status, p.priority.getD task.priority,
        p.assigneeID.getD task.assigneeID, p.dueDate.getD task.dueDate⟩ := by
  simp only [buildTaskDiffEntries, applyUpdates, TaskRow.mk.injEq]
  refine ⟨trivial, trivial, ?_, ?_, ?_, ?_, ?_, ?_⟩
  · exact diffTitle_fst task userID p.title
  · exact diffDescription_fst task userID p.description
  · exact diffStatus_fst task userID p.status
  · exact diffPriority_fst task userID p.priority
  · exact diffAssignee_fst task userID p.assigneeID
  · exact diffDueDate_fst task userID p.dueDate

/-- Applying an empty updates map changes nothing. -/
theorem applyUpdates_isEmpty (t : TaskRow) (u : TaskUpdates) (h : u.isEmpty = true) :
    applyUpdates t u = t := by
  unfold TaskUpdates.isEmpty at h
  simp only [Bool.and_eq_true, Option.isNone_iff_eq_none] at h
  obtain ⟨⟨⟨⟨⟨h1, h2⟩, h3⟩, h4⟩, h5⟩, h6⟩ := h
  simp [applyUpdates, h1, h2, h3, h4, h5, h6]

/-- Row lookup after the per-row conditional update finds the updated
row (the update does not touch the primary key). -/
theorem findTask_map_update (l : List TaskRow) (taskID : Int) (u : TaskUpdates) :
    findTask (l.map fun t => if t.id == taskID then applyUpdates t u else t) taskID =
      (findTask l taskID).map fun t => applyUpdates t u := by
  induction l with
  | nil => rfl
  | cons t rest ih =>
    by_cases hs : (t.id == taskID) = true
    · have h1 : ((t :: rest).map fun t2 => if t2.id == taskID then applyUpdates t2 u else t2) =
          applyUpdates t u ::
            (rest.map fun t2 => if t2.id == taskID then applyUpdates t2 u else t2) := by
        rw [List.map_cons, if_pos hs]
      have h2 : findTask (applyUpdates t u ::
          (rest.map fun t2 => if t2.id == taskID then applyUpdates t2 u else t2)) taskID =
          some (applyUpdates t u) :=
        List.find?_cons_of_pos _ hs
      have h3 : findTask (t :: rest) taskID = some t :=
        List.find?_cons_of_pos _ hs
      rw [h1, h2, h3]
      rfl
    · have h1 : ((t :: rest).map fun t2 => if t2.id == taskID then applyUpdates t2 u else t2) =
          t :: (rest.map fun t2 => if t2.id == taskID then applyUpdates t2 u else t2) := by
        rw [List.map_cons, if_neg hs]
      have h2 : findTask (t ::
          (rest.map fun t2 => if t2.id == taskID then applyUpdates t2 u else t2)) taskID =
          findTask (rest.map fun t2 => if t2.id == taskID then applyUpdates t2 u else t2)
            taskID :=
        List.find?_cons_of_neg _ hs
      have h3 : findTask (t :: rest) taskID = findTask rest taskID :=
        List.find?_cons_of_neg _ hs
      rw [h1, h2, h3, ih]

/-- Inversion of a successful UpdateTask: the row was found, the patch
parsed, and either the diff was empty and nothing changed, or the diff was
nonempty and both tables took exactly the computed updates and entries. -/
theorem updateTask_ok_cases (env : TaskEnv) (faults : TaskFaults) (st : TaskStore)
    (userID taskID : Int) (raw : List (String × JVal)) (st1 : TaskStore) (team : Int)
    (h : UpdateTask env faults st userID taskID raw = .ok (st1, team)) :
    ∃ task p, findTask st.tasks taskID = some task ∧
      parseTaskPatch env.isMember raw = .ok p ∧
      (((buildTaskDiffEntries task userID p).1.isEmpty = true ∧ st1 = st) ∨
       ((buildTaskDiffEntries task userID p).1.isEmpty = false ∧
        st1.tasks = st.tasks.map (fun t => if t.id == taskID then
          applyUpdates t (buildTaskDiffEntries task userID p).1 else t) ∧
        st1.history = st.history ++ (buildTaskDiffEntries task userID p).2)) := by
  unfold UpdateTask at h
  split at h
  · exact absurd h (by simp)
  split at h
  · exact absurd h (by simp)
  split at h
  · exact absurd h (by simp)
  next task hfind =>
  split at h
  · exact absurd h (by simp)
  · exact absurd h (by simp)
  split at h
  · exact absurd h (by simp)
  next p hparse =>
  split at h
  · exact absurd h (by simp)
  split at h
  · next hempty =>
    rw [Except.ok.injEq, Prod.mk.injEq] at h
    exact ⟨task, p, hfind, hparse, Or.inl ⟨hempty, h.1.symm⟩⟩
  · next hempty =>
    split at h
    · exact absurd h (by simp)
    split at h
    · exact absurd h (by simp)
    split at h
    · exact absurd h (by simp)
    rw [Except.ok.injEq, Prod.mk.injEq] at h
    refine ⟨task, p, hfind, hparse, Or.inr ⟨by simpa using hempty, ?_, ?_⟩⟩
    · rw [← h.1]
    · rw [← h.1]

/-- C3: after a successful UpdateTask on a fetched row with a parsed patch,
the history gained exactly one row per patched field whose parsed value
differs from the row's current value — each row carrying changed_by equal
to the caller, the task id, and the JSON-encoded old and new values — and
no row for a patched field equal to the current value; the stored row holds
the patched values, so equal-valued fields also kept their columns. -/
theorem updateTask_diff_history_rows
    (env : TaskEnv) (faults : TaskFaults) (st : TaskStore) (userID taskID : Int)
    (raw : List (String × JVal)) (st1 : TaskStore) (team : Int)
    (task : TaskRow) (p : ParsedPatch)
    (hok : UpdateTask env faults st userID taskID raw = .ok (st1, team))
    (hfind : findTask st.tasks taskID = some task)
    (hparse : parseTaskPatch env.isMember raw = .ok p) :
    ∃ entries, st1.history = st.history ++ entries ∧
      (∀ e ∈ entries, e.changedBy = some userID ∧ e.taskID = task.id) ∧
      (∀ e ∈ entries, e.fieldName = "title" ∨ e.fieldName = "description" ∨
        e.fieldName = "status" ∨ e.fieldName = "priority" ∨
        e.fieldName = "assignee_id" ∨ e.fieldName = "due_date") ∧
      (entries.filter (fun e => e.fieldName = "title") =
        match p.title with
        | none => []
        | some v => if task.title = v then []
          else [⟨task.id, some userID, "title", .jstr task.title, .jstr v⟩]) ∧
      (entries.filter (fun e => e.fieldName = "description") =
        match p.description with
        | none => []
        | some d => if task.description = d then []
          else [⟨task.id, some userID, "description",
            jsonOfOptString task.description, jsonOfOptString d⟩]) ∧
      (entries.filter (fun e => e.fieldName = "status") =
        match p.status with
        | none => []
        | some v => if task.status = v then []
          else [⟨task.id, some userID, "status", .jstr task.status, .jstr v⟩]) ∧
      (entries.filter (fun e => e.fieldName = "priority") =
        match p.priority with
        | none => []
        | some v => if task.priority = v then []
          else [⟨task.id, some userID, "priority", .jstr task.priority, .jstr v⟩]) ∧
      (entries.filter (fun e => e.fieldName = "assignee_id") =
        match p.assigneeID with
        | none => []
        | some d => if task.assigneeID = d then []
          else [⟨task.id, some userID, "assignee_id",
            jsonOfOptInt task.assigneeID, jsonOfOptInt d⟩]) ∧
      (entries.filter (fun e => e.fieldName = "due_date") =
        match p.dueDate with
        | none => []
        | some d => if task.dueDate = d then []
          else [⟨task.id, some userID, "due_date",
            jsonOfOptString task.dueDate, jsonOfOptString d⟩]) ∧
      findTask st1.tasks taskID = some ⟨task.id, task.teamID,
        p.title.getD task.title, p.description.getD task.description,
        p.status.getD task.status, p.priority.getD task.priority,
        p.assigneeID.getD task.assigneeID, p.dueDate.getD task.dueDate⟩ := by
  obtain ⟨task2, p2, hfind2, hparse2, hcase⟩ :=
    updateTask_ok_cases env faults st userID taskID raw st1 team hok
  rw [hfind] at hfind2
  rw [hparse] at hparse2
  have htask : task = task2 := Option.some.inj hfind2
  have hp : p = p2 := Except.ok.inj hparse2
  subst htask
  subst hp
  refine ⟨(buildTaskDiffEntries task userID p).2, ?_,
    entries_changedBy task userID p,
    entries_fieldNames task userID p,
    entries_filter_title task userID p,
    entries_filter_description task userID p,
    entries_filter_status task userID p,
    entries_filter_priority task userID p,
    entries_filter_assignee task userID p,
    entries_filter_duedate task userID p, ?_⟩
  · rcases hcase with ⟨hemp, hst1⟩ | ⟨hemp, htasks, hhist⟩
    · have hnil : (buildTaskDiffEntries task userID p).2 = [] :=
        (buildTaskDiffEntries_empty task userID p).mp hemp
      rw [hst1, hnil, List.append_nil]
    · exact hhist
  · rcases hcase with ⟨hemp, hst1⟩ | ⟨hemp, htasks, hhist⟩
    · rw [hst1, hfind, ← applyUpdates_diff task userID p,
        applyUpdates_isEmpty task _ hemp]
    · rw [htasks, findTask_map_update, hfind, ← applyUpdates_diff task userID p]
      rfl

/-- Witness for C3: the concrete status patch produces exactly one status
history row and updates the status column. -/
theorem updateTask_diff_history_rows_w :
    ∃ entries,
      (⟨[⟨1, 2, "t", none, "done", "low", none, none⟩],
        [⟨1, some 9, "status", .jstr "todo", .jstr "done"⟩]⟩ : TaskStore).history =
        wTaskStore.history ++ entries ∧
      (∀ e ∈ entries, e.changedBy = some 9 ∧
        e.taskID = (⟨1, 2, "t", none, "todo", "low", none, none⟩ : TaskRow).id) ∧
      (∀ e ∈ entries, e.fieldName = "title" ∨ e.fieldName = "description" ∨
        e.fieldName = "status" ∨ e.fieldName = "priority" ∨
        e.fieldName = "assignee_id" ∨ e.fieldName = "due_date") ∧
      (entries.filter (fun e => e.fieldName = "title") =
        match (⟨none, none, some "done", none, none, none⟩ : ParsedPatch).title with
        | none => []
        | some v => if (⟨1, 2, "t", none, "todo", "low", none, none⟩ : TaskRow).title = v then []
          else [⟨1, some 9, "title", .jstr "t", .jstr v⟩]) ∧
      (entries.filter (fun e => e.fieldName = "description") =
        match (⟨none, none, some "done", none, none, none⟩ : ParsedPatch).description with
        | none => []
        | some d => if (none : Option String) = d then []
          else [⟨1, some 9, "description", jsonOfOptString none, jsonOfOptString d⟩]) ∧
      (entries.filter (fun e => e.fieldName = "status") =
        match (⟨none, none, some "done", none, none, none⟩ : ParsedPatch).status with
        | none => []
        | some v => if (⟨1, 2, "t", none, "todo", "low", none, none⟩ : TaskRow).status = v then []
          else [⟨1, some 9, "status", .jstr "todo", .jstr v⟩]) ∧
      (entries.filter (fun e => e.fieldName = "priority") =
        match (⟨none, none, some "done", none, none, none⟩ : ParsedPatch).priority with
        | none => []
        | some v => if (⟨1, 2, "t", none, "todo", "low", none, none⟩ : TaskRow).priority = v then []
          else [⟨1, some 9, "priority", .jstr "low", .jstr v⟩]) ∧
      (entries.filter (fun e => e.fieldName = "assignee_id") =
        match (⟨none, none, some "done", none, none, none⟩ : ParsedPatch).assigneeID with
        | none => []
        | some d => if (none : Option Int) = d then []
          else [⟨1, some 9, "assignee_id", jsonOfOptInt none, jsonOfOptInt d⟩]) ∧
      (entries.filter (fun e => e.fieldName = "due_date") =
        match (⟨none, none, some "done", none, none, none⟩ : ParsedPatch).dueDate with
        | none => []
        | some d => if (none : Option String) = d then []
          else [⟨1, some 9, "due_date", jsonOfOptString none, jsonOfOptString d⟩]) ∧
      findTask (⟨[⟨1, 2, "t", none, "done", "low", none, none⟩],
          [⟨1, some 9, "status", .jstr "todo", .jstr "done"⟩]⟩ : TaskStore).tasks 1 =
        some ⟨1, 2, (Option.getD none "t"), (Option.getD none none),
          (Option.getD (some "done") "todo"), (Option.getD none "low"),
          (Option.getD none none), (Option.getD none none)⟩ :=
  updateTask_diff_history_rows wTaskEnv noTaskFaults wTaskStore 9 1
    [("status", .jstr "done")]
    ⟨[⟨1, 2, "t", none, "done", "low", none, none⟩],
      [⟨1, some 9, "status", .jstr "todo", .jstr "done"⟩]⟩ 2
    ⟨1, 2, "t", none, "todo", "low", none, none⟩
    ⟨none, none, some "done", none, none, none⟩ rfl rfl rfl
